import Mathlib

/-!
Verification development for the llm-stream-parser library.

The TypeScript sources are shallowly embedded in Lean 4:
* strings are modelled as `List Char` (JS strings indexed by UTF-16 units;
  all inputs of interest are ASCII, where the two views agree),
* JS exceptions are modelled with `Except` / explicit error components that
  carry the mutated-so-far state (JS mutations survive a throw),
* the regular expressions of `tag-matcher.ts` are embedded as executable
  scanners whose behaviour matches the JS backtracking semantics on the
  fixed patterns involved,
* observer notifications (`EventEmitter.emit`) are modelled as an event
  trace accumulated by each operation.
-/

namespace LSP

/-! ## Character classes used by the regular expressions -/

/-- JS regex `[a-zA-Z]`: first character of a tag name. -/
def isNameStart (c : Char) : Bool :=
  (('a' ≤ c && c ≤ 'z') || ('A' ≤ c && c ≤ 'Z'))

/-- JS regex `[a-zA-Z0-9_-]`: subsequent characters of a tag name. -/
def isNameChar (c : Char) : Bool :=
  isNameStart c || ('0' ≤ c && c ≤ '9') || c = '_' || c = '-'

/-- JS regex `\w`: word characters (attribute names). -/
def isWordChar (c : Char) : Bool :=
  isNameStart c || ('0' ≤ c && c ≤ '9') || c = '_'

/-- JS regex `\d`. -/
def isDigitCh (c : Char) : Bool :=
  '0' ≤ c && c ≤ '9'

/-- JS regex `\s` (and `String.prototype.trim`), restricted to the ASCII
whitespace characters: space, tab, line feed, carriage return, vertical
tab, form feed.  (JS also includes some Unicode space characters; no code
path of the library distinguishes them.) -/
def isWs (c : Char) : Bool :=
  c = ' ' || c = '\t' || c = '\n' || c = '\r' || c = Char.ofNat 11 || c = Char.ofNat 12

/-- Length of the maximal prefix of `l` whose characters satisfy `p`
(the maximal-munch step of a greedy `p*` regex element). -/
def runLen (p : Char → Bool) : List Char → Nat
  | [] => 0
  | c :: cs => if p c then runLen p cs + 1 else 0

/-- JS `String.prototype.trim` on the modelled whitespace class. -/
def trimJs (l : List Char) : List Char :=
  ((l.dropWhile isWs).reverse.dropWhile isWs).reverse

/-! ## Error model (`src/types/errors.ts`) -/

/-- `ParserErrorCode` enumeration. -/
inductive ParserErrorCode where
  | invalidTagFormat
  | unknownTag
  | contentValidationFailed
  | attributeValidationFailed
  | bufferOverflow
  | malformedAttributes
  | unclosedTag
  | transformationFailed
  | invalidNesting
  | mismatchedClosingTag
  | invalidSelfClosing
  | maxDepthExceeded
  | invalidChildren
  | schemaViolation
  deriving DecidableEq, Repr

/-- Structural context attached to some `ParserError`s
(the `context` constructor argument). -/
inductive ErrCtx where
  | none
  | expectedActual (expected actual : List Char)
  deriving DecidableEq, Repr

/-- `ParserError`: message, code, optional context / path / depth. -/
structure ParserError where
  message : List Char
  code : ParserErrorCode
  ctx : ErrCtx := ErrCtx.none
  path : Option (List Char) := Option.none
  depth : Option Int := Option.none
  deriving DecidableEq, Repr

/-- `ParserError.fromUnknownTag`. -/
def ParserError.fromUnknownTag (tagName : List Char) : ParserError :=
  { message := "Unknown tag: ".toList ++ tagName, code := ParserErrorCode.unknownTag }

/-- `ParserError.fromBufferOverflow` (the numeric max size is interpolated
into the JS message; the model keeps the fixed prefix). -/
def ParserError.fromBufferOverflow (_maxSize : Int) : ParserError :=
  { message := "Buffer overflow: exceeds maximum size of ".toList,
    code := ParserErrorCode.bufferOverflow, depth := Option.none, ctx := ErrCtx.none,
    path := Option.none }

/-- `ParserError.fromMaxDepth`. -/
def ParserError.fromMaxDepth (maxDepth : Int) (path : Option (List Char)) : ParserError :=
  { message := "Maximum nesting depth of ".toList,
    code := ParserErrorCode.maxDepthExceeded, path := path, depth := Option.some maxDepth }

/-- `ParserError.fromMismatchedClosing`. -/
def ParserError.fromMismatchedClosing (expected actual : List Char) : ParserError :=
  { message := "Mismatched closing tag: expected ".toList ++ expected
      ++ ", got ".toList ++ actual,
    code := ParserErrorCode.mismatchedClosingTag,
    ctx := ErrCtx.expectedActual expected actual }

/-- `ParserError.fromValidation` with kind content / attributes / children. -/
inductive ValKind where
  | content
  | attributes
  | children
  deriving DecidableEq, Repr

/-- `ParserError.fromValidation`. -/
def ParserError.fromValidation (tagName : List Char) (msg : List Char)
    (kind : ValKind) : ParserError :=
  { message := " validation failed for tag ".toList ++ tagName ++ ": ".toList ++ msg,
    code := match kind with
      | ValKind.content => ParserErrorCode.contentValidationFailed
      | ValKind.attributes => ParserErrorCode.attributeValidationFailed
      | ValKind.children => ParserErrorCode.invalidChildren }

/-- `ParserError.fromTransformation`. -/
def ParserError.fromTransformation (tagName : List Char) (msg : List Char) : ParserError :=
  { message := "Transformation failed for tag ".toList ++ tagName ++ ": ".toList ++ msg,
    code := ParserErrorCode.transformationFailed }

/-- A JavaScript-level thrown value inside the engine: either a
`ParserError`, or the `TypeError` raised by reading property `tag` of
`undefined` (`this.tagStack.pop()!` on an empty stack in
`handleClosingTag`). -/
inductive JsErr where
  | parser (e : ParserError)
  | typeErrorUndefinedTag
  deriving DecidableEq, Repr

/-! ## Attribute values (`TagMatcher.parseAttributeValue`) -/

/-- Decoded attribute value.  JS stores a dynamically typed value; the
model uses a tagged union.  A float produced by `parseFloat` on a
`/^\d*\.\d+$/` literal is represented by that literal. -/
inductive AttrValue where
  | boolV (b : Bool)
  | intV (n : Nat)
  | floatV (lit : List Char)
  | strV (s : List Char)
  deriving DecidableEq, Repr

/-- Value of a pure-digit string (JS `parseInt(value, 10)` on a
`/^\d+$/` match). -/
def digitsToNat (l : List Char) : Nat :=
  l.foldl (fun acc c => acc * 10 + (c.toNat - '0'.toNat)) 0

/-- Test for the JS regex `/^\d+$/`. -/
def isAllDigits (l : List Char) : Bool :=
  !l.isEmpty && l.all isDigitCh

/-- Test for the JS regex `/^\d*\.\d+$/`: optional digits, one decimal
point, at least one digit.  (Backtracking never helps here: the `\d*`
group must stop exactly at the first non-digit, which has to be `.`.) -/
def isFloatShape (l : List Char) : Bool :=
  match l.drop (runLen isDigitCh l) with
  | '.' :: rest => !rest.isEmpty && rest.all isDigitCh
  | _ => false

/-- `TagMatcher.parseAttributeValue` on a string argument: the fixed
coercion cascade integer → float → boolean literal → string. -/
def parseAttributeValueStr (value : List Char) : AttrValue :=
  if isAllDigits value then AttrValue.intV (digitsToNat value)
  else if isFloatShape value then AttrValue.floatV value
  else if value = "true".toList then AttrValue.boolV true
  else if value = "false".toList then AttrValue.boolV false
  else AttrValue.strV value

/-- Attribute map: `Record<string, unknown>` with JS object insertion
semantics (updating an existing key keeps its position, a new key is
appended). -/
def AttrMap := List (List Char × AttrValue)
  deriving DecidableEq, Repr

/-- JS `attributes[name] = value` on the modelled record. -/
def setAttr : AttrMap → List Char → AttrValue → AttrMap
  | [], k, v => [(k, v)]
  | (k0, v0) :: rest, k, v =>
      if k0 = k then (k, v) :: rest else (k0, v0) :: setAttr rest k v

/-- JS spread merge `{ ...a, ...b }`. -/
def mergeAttrs (a b : AttrMap) : AttrMap :=
  b.foldl (fun m kv => setAttr m kv.1 kv.2) a

/-- Lookup in the modelled record. -/
def getAttr (m : AttrMap) (k : List Char) : Option AttrValue :=
  (m.find? (fun kv => kv.1 = k)).map (·.2)

/-! ## Attribute tokenizer (`TagPatterns.ATTRIBUTES` global scan)

The pattern is `(\w+)(?:=(?:"([^"]*)"|'([^']*)'|([^\s>]+)))?` executed
repeatedly with `lastIndex` advancing past each match.  One match:
a maximal word-character run (the name), optionally followed by `=` and a
value, where the value alternatives are tried in order double-quoted,
single-quoted, unquoted; an unterminated quote falls through to the
unquoted alternative; if no alternative fits, the optional group matches
empty and the match is the bare name. -/

/-- Result of matching one attribute token at the head of `rest` (which
must start with a word character): the decoded value as passed to
`parseAttributeValue` (`Option.none` encodes the bare-attribute boolean
`true`), and the remaining input after the match. -/
def attrTokenValue (afterName : List Char) : Option (List Char) × List Char :=
  match afterName with
  | '=' :: rest2 =>
      match rest2 with
      | '"' :: inner =>
          let v := inner.takeWhile (fun c => c ≠ '"')
          if (inner.drop v.length).isEmpty then
            -- no closing double quote: fall through to the unquoted alternative
            let u := rest2.takeWhile (fun c => !isWs c && c ≠ '>')
            if u.isEmpty then (Option.none, rest2) else (Option.some u, rest2.drop u.length)
          else (Option.some v, inner.drop (v.length + 1))
      | '\'' :: inner =>
          let v := inner.takeWhile (fun c => c ≠ '\'')
          if (inner.drop v.length).isEmpty then
            let u := rest2.takeWhile (fun c => !isWs c && c ≠ '>')
            if u.isEmpty then (Option.none, rest2) else (Option.some u, rest2.drop u.length)
          else (Option.some v, inner.drop (v.length + 1))
      | _ =>
          let u := rest2.takeWhile (fun c => !isWs c && c ≠ '>')
          if u.isEmpty then (Option.none, '=' :: rest2)
          else (Option.some u, rest2.drop u.length)
  | _ => (Option.none, afterName)

/-- Repeated `ATTRIBUTES.exec` scan.  `fuel` bounds the number of matches;
every match consumes at least one character, so `rem.length` matches
suffice. -/
def parseAttrsAux : Nat → List Char → AttrMap → AttrMap
  | 0, _, acc => acc
  | n + 1, rem, acc =>
      let skipped := rem.dropWhile (fun c => !isWordChar c)
      match skipped with
      | [] => acc
      | _ :: _ =>
          let name := skipped.takeWhile isWordChar
          let afterName := skipped.drop name.length
          let (v, rest) := attrTokenValue afterName
          let value := match v with
            | Option.none => AttrValue.boolV true
            | Option.some s => parseAttributeValueStr s
          parseAttrsAux n rest (setAttr acc name value)

/-- `TagMatcher.parseAttributes`: `undefined` (here `Option.none`) for a
blank attribute string and for a scan that produced no entries. -/
def parseAttributes (attributesStr : List Char) : Option AttrMap :=
  if trimJs attributesStr = [] then Option.none
  else
    let m := parseAttrsAux attributesStr.length attributesStr []
    if m.isEmpty then Option.none else Option.some m

/-! ## Buffer manager (`src/core/buffer-manager.ts`) -/

/-- `BufferManager` state: content, configured maximum size, cumulative
total of appended characters.  `maxSize` is a JS number, kept as `Int`
because no validation prevents non-positive configured sizes. -/
structure BufferState where
  buffer : List Char
  maxSize : Int
  totalBytesProcessed : Nat
  deriving DecidableEq, Repr

/-- `new BufferManager(maxSize)`. -/
def BufferState.mk0 (maxSize : Int) : BufferState :=
  { buffer := [], maxSize := maxSize, totalBytesProcessed := 0 }

/-- `BufferManager.append`: rejected with `BufferOverflow` when the
resulting length would exceed `maxSize`; the rejection changes nothing. -/
def bufAppend (b : BufferState) (chunk : List Char) : Except ParserError BufferState :=
  if (b.buffer.length : Int) + chunk.length > b.maxSize then
    Except.error (ParserError.fromBufferOverflow b.maxSize)
  else
    Except.ok { b with buffer := b.buffer ++ chunk,
                       totalBytesProcessed := b.totalBytesProcessed + chunk.length }

/-- `BufferManager.consume`: removes and returns the first `n` characters
(everything when `n ≥ length`, nothing when `n = 0`, mirroring the
`length <= 0` guard on a non-negative argument). -/
def bufConsume (b : BufferState) (n : Nat) : List Char × BufferState :=
  if n = 0 then ([], b)
  else if n ≥ b.buffer.length then (b.buffer, { b with buffer := [] })
  else (b.buffer.take n, { b with buffer := b.buffer.drop n })

/-- `BufferManager.removeRange`: deletes `[s, e)`; silently a no-op on an
invalid range (the JS negative-start guard is vacuous on `Nat`). -/
def bufRemoveRange (b : BufferState) (s e : Nat) : BufferState :=
  if e < s ∨ s ≥ b.buffer.length then b
  else { b with buffer := b.buffer.take s ++ b.buffer.drop e }

/-- `BufferManager.clear`: empties the content but keeps
`totalBytesProcessed` (the counter is not reset). -/
def bufClear (b : BufferState) : BufferState :=
  { b with buffer := [] }

/-! ## Configuration (`src/types/config.ts`) -/

/-- User-supplied `ParserConfig` (all fields optional).  The numeric
fields are JS numbers, kept as `Int`.  The `errorHandler` field is never
read by the engine and is omitted. -/
structure ParserConfig where
  caseSensitive : Option Bool := Option.none
  trimWhitespace : Option Bool := Option.none
  maxBufferSize : Option Int := Option.none
  preserveAttributeOrder : Option Bool := Option.none
  maxDepth : Option Int := Option.none
  preserveWhitespace : Option Bool := Option.none
  autoCloseUnclosed : Option Bool := Option.none
  enableNested : Option Bool := Option.none
  deriving DecidableEq, Repr

/-- `RequiredParserConfig` with all defaults applied. -/
structure RequiredParserConfig where
  caseSensitive : Bool
  trimWhitespace : Bool
  maxBufferSize : Int
  preserveAttributeOrder : Bool
  maxDepth : Int
  preserveWhitespace : Bool
  autoCloseUnclosed : Bool
  enableNested : Bool
  deriving DecidableEq, Repr

/-- `DEFAULT_CONFIG`. -/
def DEFAULT_CONFIG : RequiredParserConfig :=
  { caseSensitive := false, trimWhitespace := true, maxBufferSize := 1024 * 1024,
    preserveAttributeOrder := false, maxDepth := 50, preserveWhitespace := false,
    autoCloseUnclosed := true, enableNested := false }

/-- `mergeConfig`. -/
def mergeConfig (c : ParserConfig) : RequiredParserConfig :=
  { caseSensitive := c.caseSensitive.getD DEFAULT_CONFIG.caseSensitive,
    trimWhitespace := c.trimWhitespace.getD DEFAULT_CONFIG.trimWhitespace,
    maxBufferSize := c.maxBufferSize.getD DEFAULT_CONFIG.maxBufferSize,
    preserveAttributeOrder :=
      c.preserveAttributeOrder.getD DEFAULT_CONFIG.preserveAttributeOrder,
    maxDepth := c.maxDepth.getD DEFAULT_CONFIG.maxDepth,
    preserveWhitespace := c.preserveWhitespace.getD DEFAULT_CONFIG.preserveWhitespace,
    autoCloseUnclosed := c.autoCloseUnclosed.getD DEFAULT_CONFIG.autoCloseUnclosed,
    enableNested := c.enableNested.getD DEFAULT_CONFIG.enableNested }

/-- `validateConfig`: collects human-readable error strings for
out-of-range numeric options, in source order. -/
def validateConfig (c : ParserConfig) : List String :=
  (match c.maxBufferSize with
    | Option.some v => if v ≤ 0 then ["maxBufferSize must be greater than 0"] else []
    | Option.none => []) ++
  (match c.maxDepth with
    | Option.some v => if v ≤ 0 then ["maxDepth must be greater than 0"] else []
    | Option.none => []) ++
  (match c.maxBufferSize with
    | Option.some v =>
        if v > 100 * 1024 * 1024 then
          ["maxBufferSize should not exceed 100MB for performance reasons"] else []
    | Option.none => []) ++
  (match c.maxDepth with
    | Option.some v =>
        if v > 1000 then ["maxDepth should not exceed 1000 for performance reasons"] else []
    | Option.none => [])

/-! ## Tag matcher (`src/core/tag-matcher.ts`)

The four regex patterns are embedded as matchers on the suffix of the
buffer starting at a scan position.  Each matcher mirrors the JS
backtracking behaviour of its fixed pattern:

* a tag name is a maximal `[a-zA-Z][a-zA-Z0-9_-]*` run (shortening it can
  never help, because every continuation of the patterns starts with a
  character outside the name class);
* in `OPENING`, `SELF_CLOSING` and `COMPLETE` the `>` closing the opener
  is necessarily the first `>` after the name (none of `\s+`, `[^>]*`,
  `\s*` can cross a `>`), the segment between name and `>` must be empty
  or start with whitespace, and the attribute capture is that whole
  segment (minus the trailing `/` for `SELF_CLOSING`);
* in `COMPLETE`, the lazy `(.*?)` makes the closer `</\1\s*>` match at its
  earliest occurrence after the opener. -/

/-- Tag shape (`TagMatch.type`). -/
inductive TagType where
  | opening
  | closing
  | selfClosing
  | complete
  deriving DecidableEq, Repr

/-- `TagMatch` record produced by the matcher. -/
structure TagMatch where
  tagName : List Char
  content : List Char
  attributes : Option AttrMap
  startIndex : Nat
  endIndex : Nat
  fullMatch : List Char
  ttype : TagType
  deriving DecidableEq, Repr

/-- `TagMatcher.normalizeTagName`. -/
def normName (caseSensitive : Bool) (n : List Char) : List Char :=
  if caseSensitive then n else n.map Char.toLower

/-- Index of the first `>` in `l`. -/
def idxOfGt : List Char → Option Nat
  | [] => Option.none
  | c :: tl => if c = '>' then Option.some 0 else (idxOfGt tl).map (· + 1)

/-- Splits a maximal tag name (`[a-zA-Z][a-zA-Z0-9_-]*`) off the front of
`l`, returning it with the rest. -/
def nameSplit (l : List Char) : Option (List Char × List Char) :=
  match l with
  | [] => Option.none
  | c :: tl =>
      if isNameStart c then Option.some (c :: tl.takeWhile isNameChar, tl.dropWhile isNameChar)
      else Option.none

/-- Matches `TagPatterns.OPENING` at the start of `t`; returns
(raw name, attribute capture, match length). -/
def matchOpeningSfx (t : List Char) : Option (List Char × List Char × Nat) :=
  match t with
  | '<' :: rest =>
      match nameSplit rest with
      | Option.some (name, rest0) =>
          match idxOfGt rest0 with
          | Option.some g =>
              let ok : Bool := match g, rest0 with
                | 0, _ => true
                | Nat.succ _, c :: _ => isWs c
                | Nat.succ _, [] => false
              if ok then Option.some (name, rest0.take g, 1 + name.length + g + 1)
              else Option.none
          | Option.none => Option.none
      | Option.none => Option.none
  | _ => Option.none

/-- Matches `TagPatterns.SELF_CLOSING` at the start of `t`; returns
(raw name, attribute capture, match length). -/
def matchSelfClosingSfx (t : List Char) : Option (List Char × List Char × Nat) :=
  match t with
  | '<' :: rest =>
      match nameSplit rest with
      | Option.some (name, rest0) =>
          match idxOfGt rest0 with
          | Option.some g =>
              match g with
              | 0 => Option.none
              | gp + 1 =>
                  let slashOk : Bool := match rest0.drop gp with
                    | '/' :: _ => true
                    | _ => false
                  let wsOk : Bool := match gp, rest0 with
                    | 0, _ => true
                    | Nat.succ _, c :: _ => isWs c
                    | Nat.succ _, [] => false
                  if slashOk && wsOk then
                    Option.some (name, rest0.take gp, 1 + name.length + (gp + 1) + 1)
                  else Option.none
          | Option.none => Option.none
      | Option.none => Option.none
  | _ => Option.none

/-- Matches `TagPatterns.CLOSING` at the start of `t`; returns
(raw name, match length). -/
def matchClosingSfx (t : List Char) : Option (List Char × Nat) :=
  match t with
  | '<' :: '/' :: rest =>
      match nameSplit rest with
      | Option.some (name, rest0) =>
          let w := runLen isWs rest0
          match rest0.drop w with
          | '>' :: _ => Option.some (name, 2 + name.length + w + 1)
          | _ => Option.none
      | Option.none => Option.none
  | _ => Option.none

/-- Matches the backreferenced closer `</\1\s*>` at the start of `l`
(for the `COMPLETE` pattern); returns the closer length. -/
def closerLenAt (rawName : List Char) (l : List Char) : Option Nat :=
  match l with
  | '<' :: '/' :: rest =>
      if rest.take rawName.length = rawName then
        let rest2 := rest.drop rawName.length
        let w := runLen isWs rest2
        match rest2.drop w with
        | '>' :: _ => Option.some (2 + rawName.length + w + 1)
        | _ => Option.none
      else Option.none
  | _ => Option.none

/-- First occurrence of the closer `</rawName\s*>` in `l`: position and
length (the lazy `(.*?)` of `COMPLETE` selects exactly this occurrence). -/
def findCloser (rawName : List Char) : List Char → Option (Nat × Nat)
  | [] => Option.none
  | c :: tl =>
      match closerLenAt rawName (c :: tl) with
      | Option.some len => Option.some (0, len)
      | Option.none => (findCloser rawName tl).map (fun pr => (pr.1 + 1, pr.2))

/-- Matches `TagPatterns.COMPLETE` at the start of `t`; returns
(raw name, attribute capture, content, match length). -/
def matchCompleteSfx (t : List Char) :
    Option (List Char × List Char × List Char × Nat) :=
  match t with
  | '<' :: rest =>
      match nameSplit rest with
      | Option.some (name, rest0) =>
          match idxOfGt rest0 with
          | Option.some g =>
              let ok : Bool := match g, rest0 with
                | 0, _ => true
                | Nat.succ _, c :: _ => isWs c
                | Nat.succ _, [] => false
              if ok then
                let afterGt := rest0.drop (g + 1)
                match findCloser name afterGt with
                | Option.some (j, clen) =>
                    Option.some (name, rest0.take g, afterGt.take j,
                      (1 + name.length + g + 1) + j + clen)
                | Option.none => Option.none
              else Option.none
          | Option.none => Option.none
      | Option.none => Option.none
  | _ => Option.none

/-- First `Option.some` value of `f` on `i, i+1, …` within `fuel` steps
(regex scanning: the position of the leftmost match). -/
def firstSome {α : Type} (f : Nat → Option α) : Nat → Nat → Option α
  | _, 0 => Option.none
  | i, fuel + 1 =>
      match f i with
      | Option.some a => Option.some a
      | Option.none => firstSome f (i + 1) fuel

/-- One scan position of `TagMatcher.findNextTag`: the three patterns are
tried in source order (self-closing, opening, closing), which resolves
equal-position ties exactly as the `earliestIndex` bookkeeping does. -/
def matchAnyAt (caseSensitive : Bool) (s : List Char) (p : Nat) : Option TagMatch :=
  let t := s.drop p
  match matchSelfClosingSfx t with
  | Option.some (n, a, len) =>
      Option.some ({ tagName := normName caseSensitive n, content := [],
                     attributes := parseAttributes a, startIndex := p,
                     endIndex := p + len, fullMatch := t.take len,
                     ttype := TagType.selfClosing } : TagMatch)
  | Option.none =>
      match matchOpeningSfx t with
      | Option.some (n, a, len) =>
          Option.some ({ tagName := normName caseSensitive n, content := [],
                         attributes := parseAttributes a, startIndex := p,
                         endIndex := p + len, fullMatch := t.take len,
                         ttype := TagType.opening } : TagMatch)
      | Option.none =>
          match matchClosingSfx t with
          | Option.some (n, len) =>
              Option.some ({ tagName := normName caseSensitive n, content := [],
                             attributes := Option.none, startIndex := p,
                             endIndex := p + len, fullMatch := t.take len,
                             ttype := TagType.closing } : TagMatch)
          | Option.none => Option.none

/-- `TagMatcher.findNextTag`. -/
def findNextTag (caseSensitive : Bool) (s : List Char) (startIndex : Nat) :
    Option TagMatch :=
  firstSome (matchAnyAt caseSensitive s) startIndex (s.length - startIndex)

/-- One scan position of the `COMPLETE` pattern. -/
def completeAt (caseSensitive : Bool) (s : List Char) (p : Nat) : Option TagMatch :=
  let t := s.drop p
  match matchCompleteSfx t with
  | Option.some (n, a, c, len) =>
      Option.some ({ tagName := normName caseSensitive n, content := c,
                     attributes := parseAttributes a, startIndex := p,
                     endIndex := p + len, fullMatch := t.take len,
                     ttype := TagType.complete } : TagMatch)
  | Option.none => Option.none

/-- Scan loop of `TagMatcher.findCompleteTags`: leftmost match, then
continue after its end (`lastIndex` semantics of the global regex).  Each
match advances the position, so `s.length + 1` iterations suffice. -/
def findCompleteAux (caseSensitive : Bool) (s : List Char) : Nat → Nat → List TagMatch
  | 0, _ => []
  | fuel + 1, i =>
      match firstSome (completeAt caseSensitive s) i (s.length - i) with
      | Option.some m => m :: findCompleteAux caseSensitive s fuel m.endIndex
      | Option.none => []

/-- `TagMatcher.findCompleteTags`. -/
def findCompleteTags (caseSensitive : Bool) (s : List Char) : List TagMatch :=
  findCompleteAux caseSensitive s (s.length + 1) 0

/-- `TagMatcher.extractTextContent`. -/
def extractTextContent (s : List Char) (startIndex endIndex : Nat) : List Char :=
  (s.take endIndex).drop startIndex

/-! ## Parser data model (`src/types/base.ts`, `src/types/schema.ts`)

JS mutates one tag object shared between the stack and its parent's
`children` array.  The model keeps the stack as the sole owner of open
records and attaches a completed record to its parent when it is popped;
the `parent` back-pointer is dropped (it is only written, never read, by
the engine).  Completed subtrees and event payloads agree with the JS
object graph at every emission point. -/

/-- `ParserState` enumeration. -/
inductive PState where
  | idle
  | parsing
  | error
  | completed
  deriving DecidableEq, Repr

/-- `ParserStats`. -/
structure ParserStats where
  totalTagsParsed : Nat
  totalBytesProcessed : Nat
  errorCount : Nat
  bufferSize : Nat
  state : PState
  registeredTagsCount : Nat
  maxDepthReached : Nat
  totalNestedTags : Nat
  deriving DecidableEq, Repr

/-- Completed nested tag record (`NestedTag` minus the unread `parent`
back-pointer). -/
inductive NestedTag where
  | node (tagName : List Char) (content : List Char) (attributes : AttrMap)
      (children : List NestedTag) (depth : Nat) (path : List Char)
      (isSelfClosing : Bool)

/-- Tag name of a nested record. -/
def NestedTag.tagName : NestedTag → List Char
  | NestedTag.node n _ _ _ _ _ _ => n

/-- Content of a nested record. -/
def NestedTag.content : NestedTag → List Char
  | NestedTag.node _ c _ _ _ _ _ => c

/-- Attributes of a nested record. -/
def NestedTag.attributes : NestedTag → AttrMap
  | NestedTag.node _ _ a _ _ _ _ => a

/-- Children of a nested record. -/
def NestedTag.children : NestedTag → List NestedTag
  | NestedTag.node _ _ _ ch _ _ _ => ch

/-- Depth of a nested record. -/
def NestedTag.depth : NestedTag → Nat
  | NestedTag.node _ _ _ _ d _ _ => d

/-- Path of a nested record. -/
def NestedTag.path : NestedTag → List Char
  | NestedTag.node _ _ _ _ _ p _ => p

/-- Flat-mode tag record (`BaseTag`). -/
structure FlatTag where
  tagName : List Char
  content : List Char
  attributes : Option AttrMap
  deriving DecidableEq, Repr

/-- Result of a user validator: JS `true | string`. -/
inductive VRes where
  | ok
  | fail (msg : List Char)

/-- `TagDefinition`.  User-supplied validator / transformer bodies are
external collaborators: they are carried as Lean functions.  The `onStart`
and `onComplete` lifecycle callbacks are external side effects; the model
records their invocation as trace events when the corresponding flag is
set.  (`onContentUpdate` and `onChildAdded` are never invoked by the
engine.) -/
structure TagDefinition where
  tagName : List Char
  validateContent : Option (List Char → VRes) := Option.none
  validateAttributes : Option (AttrMap → VRes) := Option.none
  validateChildren : Option (List NestedTag → VRes) := Option.none
  transformContent : Option (List Char → List Char) := Option.none
  transformAttributes : Option (AttrMap → AttrMap) := Option.none
  defaultContent : Option (List Char) := Option.none
  defaultAttributes : Option AttrMap := Option.none
  hasOnStart : Bool := false
  hasOnComplete : Bool := false

/-- Registry update (`Map.set`): replace in place or append. -/
def regSet : List TagDefinition → TagDefinition → List TagDefinition
  | [], d => [d]
  | d0 :: rest, d =>
      if d0.tagName = d.tagName then d :: rest else d0 :: regSet rest d

/-- Registry lookup (`Map.get`). -/
def regGet (r : List TagDefinition) (name : List Char) : Option TagDefinition :=
  r.find? (fun d => d.tagName = name)

/-- `TagValidator.validate`: content, attribute and children validators in
order, mirroring the JS truthiness guards (content runs only when
non-empty; attributes and children only when the field is present). -/
def runValidate (d : TagDefinition) (tagName : List Char) (content : List Char)
    (attrs : Option AttrMap) (children : Option (List NestedTag)) :
    Option ParserError :=
  match d.validateContent, content with
  | Option.some v, _ :: _ =>
      match v content with
      | VRes.fail m => Option.some (ParserError.fromValidation tagName m ValKind.content)
      | VRes.ok => runValidateAttrs d tagName attrs children
  | _, _ => runValidateAttrs d tagName attrs children
where
  /-- Attribute validation step. -/
  runValidateAttrs (d : TagDefinition) (tagName : List Char) (attrs : Option AttrMap)
      (children : Option (List NestedTag)) : Option ParserError :=
    match d.validateAttributes, attrs with
    | Option.some v, Option.some a =>
        match v a with
        | VRes.fail m =>
            Option.some (ParserError.fromValidation tagName m ValKind.attributes)
        | VRes.ok => runValidateChildren d tagName children
    | _, _ => runValidateChildren d tagName children
  /-- Children validation step. -/
  runValidateChildren (d : TagDefinition) (tagName : List Char)
      (children : Option (List NestedTag)) : Option ParserError :=
    match d.validateChildren, children with
    | Option.some v, Option.some ch =>
        match v ch with
        | VRes.fail m =>
            Option.some (ParserError.fromValidation tagName m ValKind.children)
        | VRes.ok => Option.none
    | _, _ => Option.none

/-- `TagTransformer.applyDefaults` on a flat record: default content when
non-empty and the content is blank; default attributes spread under the
existing ones (making `attributes` an object whenever defaults exist). -/
def applyDefaultsFlat (d : TagDefinition) (t : FlatTag) : FlatTag :=
  let t1 :=
    match d.defaultContent with
    | Option.some dc =>
        if !dc.isEmpty && (trimJs t.content).isEmpty then { t with content := dc } else t
    | Option.none => t
  match d.defaultAttributes with
  | Option.some da =>
      { t1 with attributes := Option.some (mergeAttrs da (t1.attributes.getD [])) }
  | Option.none => t1

/-- `TagTransformer.transform` on a flat record (the JS guards: content
transformer only on non-empty content, attribute transformer only on a
present attribute object). -/
def applyTransformFlat (d : TagDefinition) (t : FlatTag) : FlatTag :=
  let t1 :=
    match d.transformContent, t.content with
    | Option.some f, _ :: _ => { t with content := f t.content }
    | _, _ => t
  match d.transformAttributes, t1.attributes with
  | Option.some f, Option.some a => { t1 with attributes := Option.some (f a) }
  | _, _ => t1

/-- `TagTransformer.transform` on a nested record (its `attributes` field
is always an object, hence always transformed when a transformer
exists). -/
def applyTransformNested (d : TagDefinition) (t : NestedTag) : NestedTag :=
  match t with
  | NestedTag.node n c a ch dp p sc =>
      let c1 := match d.transformContent, c with
        | Option.some f, _ :: _ => f c
        | _, _ => c
      let a1 := match d.transformAttributes with
        | Option.some f => f a
        | Option.none => a
      NestedTag.node n c1 a1 ch dp p sc

/-! ## Parse engine (`src/core/stream-parser.ts`) -/

/-- Open tag record held by the stack (the JS `NestedTag` still being
built). -/
structure OpenTag where
  tagName : List Char
  content : List Char
  attributes : AttrMap
  children : List NestedTag
  depth : Nat
  path : List Char
  isSelfClosing : Bool

/-- `TagStackEntry`. -/
structure TagStackEntry where
  tag : OpenTag
  startIndex : Nat
  depth : Nat
  path : List Char

/-- Freeze an open record into a completed tree node. -/
def OpenTag.toNested (t : OpenTag) : NestedTag :=
  NestedTag.node t.tagName t.content t.attributes t.children t.depth t.path t.isSelfClosing

/-- Context argument of a `parse_error` notification. -/
inductive ErrContext where
  | chunk (c : List Char)
  | tagMatchCtx (m : TagMatch)
  deriving DecidableEq, Repr

/-- Observer notifications, in emission order. -/
inductive Event where
  | tagStarted (tagName : List Char) (attributes : Option AttrMap)
  | tagContentUpdate (tagName : List Char) (partialContent : List Char)
  | tagCompletedFlat (tag : FlatTag)
  | tagCompleted (tag : NestedTag)
  | parseErrorEv (e : ParserError) (ctx : ErrContext)
  | parsingComplete (tags : List FlatTag)
  | documentCompletedFlat (tags : List FlatTag)
  | documentCompleted (tags : List NestedTag)
  | bufferCleared
  | statsUpdated (stats : ParserStats)
  | parserReset
  | parsingFinalized (stats : ParserStats)
  | tagOpened (tagName : List Char) (depth : Nat) (path : List Char)
  | tagClosed (tag : NestedTag) (depth : Nat) (path : List Char)
  | subtreeCompleted (tag : NestedTag) (depth : Nat)
  | cbStart (tagName : List Char)
  | cbComplete (tagName : List Char)

/-- Engine state (`StreamParser` fields). -/
structure Engine where
  config : RequiredParserConfig
  buf : BufferState
  registry : List TagDefinition
  state : PState
  stats : ParserStats
  tagStack : List TagStackEntry
  currentDepth : Nat
  currentPath : List Char

/-- `StreamParser.initializeStats`. -/
def initializeStats : ParserStats :=
  { totalTagsParsed := 0, totalBytesProcessed := 0, errorCount := 0, bufferSize := 0,
    state := PState.idle, registeredTagsCount := 0, maxDepthReached := 0,
    totalNestedTags := 0 }

/-- `new StreamParser(config)`: merges the configuration (without invoking
`validateConfig`, which no engine code path calls). -/
def mkEngine (config : ParserConfig) : Engine :=
  let rc := mergeConfig config
  { config := rc, buf := BufferState.mk0 rc.maxBufferSize, registry := [],
    state := PState.idle, stats := initializeStats, tagStack := [],
    currentDepth := 0, currentPath := [] }

/-- `StreamParser.updateStats` (also emits `stats_updated`). -/
def updateStats (e : Engine) : Engine × List Event :=
  let st := { e.stats with totalBytesProcessed := e.buf.totalBytesProcessed,
                           bufferSize := e.buf.buffer.length,
                           registeredTagsCount := e.registry.length }
  ({ e with stats := st }, [Event.statsUpdated st])

/-- `StreamParser.defineTag`. -/
def defineTag (e : Engine) (d : TagDefinition) : Engine × List Event :=
  updateStats { e with registry := regSet e.registry d }

/-- `StreamParser.getCurrentParent` (top of stack). -/
def getCurrentParent (e : Engine) : Option OpenTag :=
  match e.tagStack with
  | [] => Option.none
  | entry :: _ => Option.some entry.tag

/-- `StreamParser.buildPath`. -/
def buildPath (e : Engine) (tagName : List Char) : List Char :=
  if e.currentPath.isEmpty then tagName else e.currentPath ++ '/' :: tagName

/-- Append a completed child to the record on top of the stack (the JS
side keeps a live reference from `parent.children`; the model performs the
attachment when the child's final state is known). -/
def attachChild (t : NestedTag) (e : Engine) : Engine :=
  match e.tagStack with
  | [] => e
  | entry :: rest =>
      { e with tagStack :=
          { entry with tag := { entry.tag with children := entry.tag.children ++ [t] } }
          :: rest }

/-- `StreamParser.completeTag`: validation, transformation and
`onComplete` when a definition exists, then the parsed-tags counter and
the `tag_closed` / `tag_completed` / `subtree_completed` notifications.
Returns the final record (transformed on success, untouched when
validation failed) together with the updated engine, the events emitted
before the throw, and the error if any. -/
def completeTagStep (tag : NestedTag) (e : Engine) :
    NestedTag × Engine × List Event × Option JsErr :=
  let d := regGet e.registry tag.tagName
  match d with
  | Option.some defn =>
      match runValidate defn tag.tagName tag.content (Option.some tag.attributes)
          (Option.some tag.children) with
      | Option.some pe => (tag, e, [], Option.some (JsErr.parser pe))
      | Option.none =>
          let tag2 := applyTransformNested defn tag
          let cb := if defn.hasOnComplete then [Event.cbComplete tag2.tagName] else []
          completeEmit tag2 cb e
  | Option.none => completeEmit tag [] e
where
  /-- Counter bump and completion notifications shared by the registered
  and unregistered paths. -/
  completeEmit (tag : NestedTag) (cb : List Event) (e : Engine) :
      NestedTag × Engine × List Event × Option JsErr :=
    let e1 := { e with stats :=
      { e.stats with totalTagsParsed := e.stats.totalTagsParsed + 1 } }
    let evs := cb ++ [Event.tagClosed tag tag.depth tag.path, Event.tagCompleted tag]
      ++ (if tag.children.isEmpty then [] else [Event.subtreeCompleted tag tag.depth])
    (tag, e1, evs, Option.none)

/-- `StreamParser.handleOpeningTag`. -/
def handleOpeningTag (m : TagMatch) (e : Engine) : Engine × List Event × Option JsErr :=
  if (e.currentDepth : Int) ≥ e.config.maxDepth then
    (e, [], Option.some (JsErr.parser
      (ParserError.fromMaxDepth e.config.maxDepth Option.none)))
  else
    let d := regGet e.registry m.tagName
    let newTag : OpenTag :=
      { tagName := m.tagName,
        content := match d with
          | Option.some dd => dd.defaultContent.getD []
          | Option.none => [],
        children := [],
        attributes := mergeAttrs
          (match d with
            | Option.some dd => dd.defaultAttributes.getD []
            | Option.none => [])
          (m.attributes.getD []),
        depth := e.currentDepth + 1,
        path := buildPath e m.tagName,
        isSelfClosing := false }
    let e1 := { e with
      currentDepth := e.currentDepth + 1,
      currentPath := newTag.path,
      stats := { e.stats with
        maxDepthReached := max e.stats.maxDepthReached (e.currentDepth + 1),
        totalNestedTags := e.stats.totalNestedTags + 1 },
      tagStack := { tag := newTag, startIndex := m.startIndex,
                    depth := e.currentDepth + 1, path := newTag.path } :: e.tagStack }
    let cb := match d with
      | Option.some dd => if dd.hasOnStart then [Event.cbStart newTag.tagName] else []
      | Option.none => []
    (e1, [Event.tagOpened newTag.tagName e1.currentDepth newTag.path,
          Event.tagStarted newTag.tagName (Option.some newTag.attributes)] ++ cb,
     Option.none)

/-- Pop the top entry, complete it, attach it to the new top and restore
depth and path (shared by `handleClosingTag` and `autoCloseTag`; the
depth / path restoration is skipped when completion throws, as in the JS
statement order). -/
def popAndComplete (e : Engine) (entry : TagStackEntry) (rest : List TagStackEntry) :
    NestedTag × Engine × List Event × Option JsErr :=
  let e1 := { e with tagStack := rest }
  let r := completeTagStep entry.tag.toNested e1
  let e3 := attachChild r.1 r.2.1
  match r.2.2.2 with
  | Option.some err => (r.1, e3, r.2.2.1, Option.some err)
  | Option.none =>
      let e4 := { e3 with
        currentDepth := e3.currentDepth - 1,
        currentPath := match rest with
          | [] => []
          | top :: _ => top.path }
      (r.1, e4, r.2.2.1, Option.none)

/-- `StreamParser.autoCloseTag`: no-op on an empty stack, otherwise pop
and complete. -/
def autoCloseTag (e : Engine) : Engine × List Event × Option JsErr :=
  match e.tagStack with
  | [] => (e, [], Option.none)
  | entry :: rest =>
      let r := popAndComplete e entry rest
      (r.2.1, r.2.2.1, r.2.2.2)

/-- The auto-close sweep of `handleClosingTag`: pop and complete while the
stack is non-empty and its top does not carry the closer's name.  One
entry is popped per iteration, so `stack length + 1` iterations suffice. -/
def autoCloseWhile (name : List Char) : Nat → Engine → Engine × List Event × Option JsErr
  | 0, e => (e, [], Option.none)
  | fuel + 1, e =>
      match e.tagStack with
      | [] => (e, [], Option.none)
      | entry :: rest =>
          if entry.tag.tagName = name then (e, [], Option.none)
          else
            let r := popAndComplete e entry rest
            match r.2.2.2 with
            | Option.none =>
                let r2 := autoCloseWhile name fuel r.2.1
                (r2.1, r.2.2.1 ++ r2.2.1, r2.2.2)
            | Option.some err => (r.2.1, r.2.2.1, Option.some err)

/-- `StreamParser.handleClosingTag`.  After a mismatch sweep that emptied
the stack, the unconditional `this.tagStack.pop()!` dereferences
`undefined`, modelled by `JsErr.typeErrorUndefinedTag`. -/
def handleClosingTag (m : TagMatch) (e : Engine) : Engine × List Event × Option JsErr :=
  match e.tagStack with
  | [] =>
      (e, [], Option.some (JsErr.parser
        { message := "Unexpected closing tag: ".toList ++ m.tagName,
          code := ParserErrorCode.mismatchedClosingTag }))
  | top :: _ =>
      let first :
          Engine × List Event × Option JsErr :=
        if top.tag.tagName ≠ m.tagName then
          if e.config.autoCloseUnclosed then
            autoCloseWhile m.tagName (e.tagStack.length + 1) e
          else
            (e, [], Option.some (JsErr.parser
              (ParserError.fromMismatchedClosing top.tag.tagName m.tagName)))
        else (e, [], Option.none)
      match first.2.2 with
      | Option.none =>
          (match first.1.tagStack with
            | [] => (first.1, first.2.1, Option.some JsErr.typeErrorUndefinedTag)
            | entry :: rest =>
                let r := popAndComplete first.1 entry rest
                (r.2.1, first.2.1 ++ r.2.2.1, r.2.2.2))
      | Option.some err => (first.1, first.2.1, Option.some err)

/-- `StreamParser.handleSelfClosingTag`: build the record, attach it to
the current parent, complete it immediately (no stack push, no depth or
path change). -/
def handleSelfClosingTag (m : TagMatch) (e : Engine) :
    Engine × List Event × Option JsErr :=
  let d := regGet e.registry m.tagName
  let tag : NestedTag := NestedTag.node m.tagName
    (match d with
      | Option.some dd => dd.defaultContent.getD []
      | Option.none => [])
    (mergeAttrs
      (match d with
        | Option.some dd => dd.defaultAttributes.getD []
        | Option.none => [])
      (m.attributes.getD []))
    [] (e.currentDepth + 1) (buildPath e m.tagName) true
  let r := completeTagStep tag e
  (attachChild r.1 r.2.1, r.2.2.1, r.2.2.2)

/-- `StreamParser.handleTextContent`: whitespace-only runs are always
dropped; other runs are appended to the innermost open record (if any)
with a `tag_content_update` notification. -/
def handleTextContent (text : List Char) (e : Engine) : Engine × List Event :=
  if (trimJs text).isEmpty then (e, [])
  else
    match e.tagStack with
    | [] => (e, [])
    | entry :: rest =>
        -- both JS branches amount to appending `text` to the existing content
        let e1 := { e with tagStack :=
          { entry with tag :=
            { entry.tag with content := entry.tag.content ++ text } } :: rest }
        (e1, [Event.tagContentUpdate entry.tag.tagName text])

/-- `StreamParser.processTagNested` (a `complete`-shaped match has no
switch case and is ignored). -/
def processTagNested (m : TagMatch) (e : Engine) : Engine × List Event × Option JsErr :=
  match m.ttype with
  | TagType.opening => handleOpeningTag m e
  | TagType.closing => handleClosingTag m e
  | TagType.selfClosing => handleSelfClosingTag m e
  | TagType.complete => (e, [], Option.none)

/-- The sweep of `StreamParser.processBufferNested`: find the next tag,
hand the intervening text to `handleTextContent`, dispatch the tag, move
past its end.  Also returns the final `lastProcessedIndex`.  Every found
match satisfies `endIndex > i`, so `buffer length + 1` iterations
suffice. -/
def nestedLoop (cs : Bool) (buffer : List Char) :
    Nat → Nat → Engine → (Engine × List Event × Option JsErr) × Nat
  | 0, i, e => ((e, [], Option.none), i)
  | fuel + 1, i, e =>
      if i < buffer.length then
        match findNextTag cs buffer i with
        | Option.none => ((e, [], Option.none), i)
        | Option.some m =>
            let r1 :=
              if i < m.startIndex then
                handleTextContent (extractTextContent buffer i m.startIndex) e
              else (e, [])
            let r2 := processTagNested m r1.1
            match r2.2.2 with
            | Option.some err => ((r2.1, r1.2 ++ r2.2.1, Option.some err), m.endIndex)
            | Option.none =>
                let r3 := nestedLoop cs buffer fuel m.endIndex r2.1
                ((r3.1.1, r1.2 ++ r2.2.1 ++ r3.1.2.1, r3.1.2.2), r3.2)
      else ((e, [], Option.none), i)

/-- `StreamParser.processBufferNested`: sweep the buffer snapshot, then
discard the consumed prefix — unless the sweep threw, in which case the
consume is skipped (the throw propagates first). -/
def processBufferNested (e : Engine) : Engine × List Event × Option JsErr :=
  let buffer := e.buf.buffer
  let r := nestedLoop e.config.caseSensitive buffer (buffer.length + 1) 0 e
  match r.1.2.2 with
  | Option.some err => (r.1.1, r.1.2.1, Option.some err)
  | Option.none =>
      let e3 :=
        if 0 < r.2 then { r.1.1 with buf := (bufConsume r.1.1.buf r.2).2 } else r.1.1
      (e3, r.1.2.1, Option.none)

/-- `StreamParser.processTagFlat`: unknown tags throw `UnknownTag`;
otherwise start events, record construction (content trimmed when
configured), defaults, validation, transformation, completion events. -/
def processTagFlat (m : TagMatch) (e : Engine) : List Event × Except ParserError FlatTag :=
  match regGet e.registry m.tagName with
  | Option.none => ([], Except.error (ParserError.fromUnknownTag m.tagName))
  | Option.some d =>
      let evs0 := [Event.tagStarted m.tagName m.attributes]
        ++ (if d.hasOnStart then [Event.cbStart m.tagName] else [])
      let tag0 : FlatTag :=
        { tagName := m.tagName,
          content := if e.config.trimWhitespace then trimJs m.content else m.content,
          attributes := m.attributes }
      let tag1 := applyDefaultsFlat d tag0
      match runValidate d tag1.tagName tag1.content tag1.attributes Option.none with
      | Option.some pe => (evs0, Except.error pe)
      | Option.none =>
          let tag2 := applyTransformFlat d tag1
          (evs0 ++ [Event.tagCompletedFlat tag2]
            ++ (if d.hasOnComplete then [Event.cbComplete tag2.tagName] else []),
           Except.ok tag2)

/-- The per-match loop of `processBufferFlat`: a throwing match is caught,
reported through `parse_error` with the match as context, and processing
continues with the next match; a successful match bumps the parsed-tags
counter and joins the batch. -/
def processFlatLoop (e : Engine) : List TagMatch → Engine × List Event × List FlatTag
  | [] => (e, [], [])
  | m :: ms =>
      let p := processTagFlat m e
      match p.2 with
      | Except.ok tag =>
          let e1 := { e with stats :=
            { e.stats with totalTagsParsed := e.stats.totalTagsParsed + 1 } }
          let r := processFlatLoop e1 ms
          (r.1, p.1 ++ r.2.1, tag :: r.2.2)
      | Except.error pe =>
          let r := processFlatLoop e ms
          (r.1, p.1 ++ [Event.parseErrorEv pe (ErrContext.tagMatchCtx m)] ++ r.2.1, r.2.2)

/-- `StreamParser.removeProcessedContent`: consume up to the end of the
last match (no-op when there were no matches). -/
def removeProcessedContent (ms : List TagMatch) (e : Engine) : Engine :=
  match ms.getLast? with
  | Option.none => e
  | Option.some lastMatch => { e with buf := (bufConsume e.buf lastMatch.endIndex).2 }

/-- `StreamParser.processBufferFlat`. -/
def processBufferFlat (e : Engine) : Engine × List Event × Option JsErr :=
  let buffer := e.buf.buffer
  let completeTags := findCompleteTags e.config.caseSensitive buffer
  let r := processFlatLoop e completeTags
  let e2 := removeProcessedContent completeTags r.1
  let evsBatch :=
    if r.2.2.isEmpty then []
    else [Event.parsingComplete r.2.2, Event.documentCompletedFlat r.2.2]
  let r3 := updateStats e2
  (r3.1, r.2.1 ++ evsBatch ++ r3.2, Option.none)

/-- The `catch` block of `StreamParser.parse`: error state, error counter,
wrapping of a non-`ParserError` throw, `parse_error` notification with the
chunk as context. -/
def parseCatch (e : Engine) (evs : List Event) (err : JsErr) (chunk : List Char) :
    Engine × List Event :=
  let pe := match err with
    | JsErr.parser p => p
    | JsErr.typeErrorUndefinedTag =>
        { message := "Unexpected error: Cannot read properties of undefined".toList,
          code := ParserErrorCode.invalidTagFormat }
  ({ e with state := PState.error,
            stats := { e.stats with errorCount := e.stats.errorCount + 1 } },
   evs ++ [Event.parseErrorEv pe (ErrContext.chunk chunk)])

/-- `StreamParser.parse`: append the chunk, run the configured strategy,
mark completion — any throw is caught and reported, never propagated
(observers are modelled as non-throwing trace sinks). -/
def parse (e : Engine) (chunk : List Char) : Engine × List Event :=
  let e1 := { e with state := PState.parsing }
  match bufAppend e1.buf chunk with
  | Except.error pe => parseCatch e1 [] (JsErr.parser pe) chunk
  | Except.ok b =>
      let e2 := { e1 with buf := b }
      let r :=
        if e2.config.enableNested then processBufferNested e2 else processBufferFlat e2
      match r.2.2 with
      | Option.none => ({ r.1 with state := PState.completed }, r.2.1)
      | Option.some jserr => parseCatch r.1 r.2.1 jserr chunk

/-- `StreamParser.reset`. -/
def reset (e : Engine) : Engine × List Event :=
  let e1 := { e with buf := bufClear e.buf }
  let e2 := { e1 with tagStack := [], currentDepth := 0, currentPath := [],
                      state := PState.idle, stats := initializeStats }
  (e2, [Event.bufferCleared, Event.parserReset])

/-- The while loop of `StreamParser.finalize`: auto-close every remaining
entry, recording each completed record that sat at root depth (the JS
`rootTags` array holds live references to exactly those objects). -/
def finalizeLoop : Nat → Engine → Engine × List Event × List NestedTag × Option JsErr
  | 0, e => (e, [], [], Option.none)
  | fuel + 1, e =>
      match e.tagStack with
      | [] => (e, [], [], Option.none)
      | entry :: rest =>
          let r := popAndComplete e entry rest
          match r.2.2.2 with
          | Option.none =>
              let roots := if entry.depth = 1 then [r.1] else []
              let r2 := finalizeLoop fuel r.2.1
              (r2.1, r.2.2.1 ++ r2.2.1, roots ++ r2.2.2.1, r2.2.2.2)
          | Option.some err => (r.2.1, r.2.2.1, [], Option.some err)

/-- `StreamParser.finalize`: capture root records, auto-close the whole
stack, mark completion, refresh statistics, emit `document_completed`
(when roots exist) and `parsing_finalized`.  A validator throw inside the
sweep propagates out of `finalize` uncaught. -/
def finalize (e : Engine) : Engine × List Event × Option JsErr :=
  let r := finalizeLoop (e.tagStack.length + 1) e
  match r.2.2.2 with
  | Option.some jserr => (r.1, r.2.1, Option.some jserr)
  | Option.none =>
      let e2 := { r.1 with state := PState.completed }
      let r3 := updateStats e2
      let evsDoc :=
        if r.2.2.1.isEmpty then [] else [Event.documentCompleted r.2.2.1]
      (r3.1, r.2.1 ++ r3.2 ++ evsDoc ++ [Event.parsingFinalized r3.1.stats], Option.none)

/-- `StreamParser.getStats` (a copy of the stats record). -/
def getStats (e : Engine) : ParserStats :=
  e.stats

/-- `StreamParser.getBufferSize`. -/
def getBufferSize (e : Engine) : Nat :=
  e.buf.buffer.length

/-- `StreamParser.getState`. -/
def getState (e : Engine) : PState :=
  e.state

/-! ## Trace observations (predicates used by the statements below) -/

/-- Is this a flat `tag_completed` notification for the given name? -/
def isCompletedFlatNamed (name : List Char) : Event → Bool
  | Event.tagCompletedFlat t => t.tagName = name
  | _ => false

/-- Is this a nested `tag_completed` notification for the given name? -/
def isCompletedNamed (name : List Char) : Event → Bool
  | Event.tagCompleted t => t.tagName = name
  | _ => false

/-- Is this a `tag_closed` notification for the given name? -/
def isClosedNamed (name : List Char) : Event → Bool
  | Event.tagClosed t _ _ => t.tagName = name
  | _ => false

/-- Is this a `parse_error` notification carrying the given error code? -/
def isParseErrorCode (c : ParserErrorCode) : Event → Bool
  | Event.parseErrorEv pe _ => pe.code = c
  | _ => false

/-- Is this a `parse_error` notification carrying exactly the given
error value? -/
def isParseErrorEq (pe0 : ParserError) : Event → Bool
  | Event.parseErrorEv pe _ => pe = pe0
  | _ => false

/-- Is this a `tag_content_update` notification? -/
def isContentUpdate : Event → Bool
  | Event.tagContentUpdate _ _ => true
  | _ => false

/-- Is this a `parse_error` notification (of any kind)? -/
def isParseErrorEvB : Event → Bool
  | Event.parseErrorEv _ _ => true
  | _ => false

/-! ## Operation sequences over the buffer (for invariant statements) -/

/-- One mutating call on a `BufferManager`. -/
inductive BufOp where
  | append (chunk : List Char)
  | consume (n : Nat)
  | removeRange (s e : Nat)
  | clear

/-- Effect of one call on the buffer state; a rejected `append` throws in
JS and leaves the manager untouched. -/
def applyBufOp (b : BufferState) : BufOp → BufferState
  | BufOp.append chunk =>
      match bufAppend b chunk with
      | Except.ok b2 => b2
      | Except.error _ => b
  | BufOp.consume n => (bufConsume b n).2
  | BufOp.removeRange s e => bufRemoveRange b s e
  | BufOp.clear => bufClear b

/-- Shape of a `COMPLETE`-pattern match: the raw text is a full opener
(raw name, attribute segment), the content, and a closing tag whose name
equals the opener's raw name up to trailing whitespace; the lazy content
never itself contains a complete matching closer (non-greedy matching
stops at the first one). -/
def CompleteShape (caseSensitive : Bool) (m : TagMatch) : Prop :=
  ∃ raw attrs ws,
    ws.all isWs = true ∧
    m.tagName = normName caseSensitive raw ∧
    m.fullMatch =
      ('<' :: raw) ++ attrs ++ ('>' :: m.content) ++ ('<' :: '/' :: raw) ++ ws ++ ['>'] ∧
    (∀ c1 ws2 c2, ws2.all isWs = true →
      m.content ≠ c1 ++ ('<' :: '/' :: raw) ++ ws2 ++ '>' :: c2)

/-! ## Theorems -/

theorem runLen_le (p : Char → Bool) : ∀ l : List Char, runLen p l ≤ l.length := by
  intro l
  induction l with
  | nil => simp [runLen]
  | cons c cs ih =>
    simp only [runLen, List.length_cons]
    split <;> omega

theorem applyBufOp_maxSize (b : BufferState) (op : BufOp) :
    (applyBufOp b op).maxSize = b.maxSize := by
  cases op with
  | append chunk =>
      by_cases hov : (b.buffer.length : Int) + chunk.length > b.maxSize
      · simp [applyBufOp, bufAppend, hov]
      · simp [applyBufOp, bufAppend, hov]
  | consume n =>
      by_cases h0 : n = 0
      · simp [applyBufOp, bufConsume, h0]
      · by_cases h1 : n ≥ b.buffer.length
        · simp [applyBufOp, bufConsume, h0, h1]
        · simp [applyBufOp, bufConsume, h0, h1]
  | removeRange s e =>
      by_cases hg : e < s ∨ s ≥ b.buffer.length
      · simp [applyBufOp, bufRemoveRange, hg]
      · simp [applyBufOp, bufRemoveRange, hg]
  | clear => rfl

theorem applyBufOp_len_le (b : BufferState) (op : BufOp)
    (h : (b.buffer.length : Int) ≤ b.maxSize) :
    ((applyBufOp b op).buffer.length : Int) ≤ (applyBufOp b op).maxSize := by
  cases op with
  | append chunk =>
      by_cases hov : (b.buffer.length : Int) + chunk.length > b.maxSize
      · simpa [applyBufOp, bufAppend, hov] using h
      · simp only [applyBufOp, bufAppend, if_neg hov]
        simp only [List.length_append]
        push_cast
        push_cast at hov
        omega
  | consume n =>
      by_cases h0 : n = 0
      · simpa [applyBufOp, bufConsume, h0] using h
      · by_cases h1 : n ≥ b.buffer.length
        · simp only [applyBufOp, bufConsume, if_neg h0, if_pos h1]
          exact le_trans (by positivity) h
        · simp only [applyBufOp, bufConsume, if_neg h0, if_neg h1, List.length_drop]
          have h2 : b.buffer.length - n ≤ b.buffer.length := Nat.sub_le _ _
          have h3 : ((b.buffer.length - n : Nat) : Int) ≤ (b.buffer.length : Int) := by
            exact_mod_cast h2
          exact le_trans h3 h
  | removeRange s e =>
      by_cases hg : e < s ∨ s ≥ b.buffer.length
      · simpa [applyBufOp, bufRemoveRange, hg] using h
      · simp only [applyBufOp, bufRemoveRange, if_neg hg, List.length_append,
          List.length_take, List.length_drop]
        push_cast [Nat.min_def]
        have h2 : min s b.buffer.length + (b.buffer.length - e) ≤ b.buffer.length := by
          omega
        have h3 : ((min s b.buffer.length + (b.buffer.length - e) : Nat) : Int) ≤
            (b.buffer.length : Int) := by exact_mod_cast h2
        push_cast [Nat.min_def] at h3
        exact le_trans h3 h
  | clear =>
      simp only [applyBufOp, bufClear]
      exact le_trans (by positivity) h

theorem foldl_bufOps_invariant (ops : List BufOp) (b : BufferState)
    (h : (b.buffer.length : Int) ≤ b.maxSize) :
    ((ops.foldl applyBufOp b).buffer.length : Int) ≤ (ops.foldl applyBufOp b).maxSize := by
  induction ops generalizing b with
  | nil => simpa using h
  | cons op rest ih =>
      simp only [List.foldl_cons]
      exact ih (applyBufOp b op) (applyBufOp_len_le b op h)

/-- C2: `append(chunk)` fails with `BufferOverflow` exactly when the
current length plus the chunk length exceeds the configured maximum; the
rejection is atomic (the error value carries no new state, and a throwing
`append` leaves the manager unchanged, as `applyBufOp` records), a
successful append extends the content and bumps the total-processed
counter, and starting from any state within its bound — in particular a
fresh buffer — no sequence of manager operations ever leaves the content
longer than the configured maximum. -/
theorem C2_buffer_append_overflow (b : BufferState) (chunk : List Char) :
    (((b.buffer.length : Int) + chunk.length > b.maxSize →
        bufAppend b chunk = Except.error (ParserError.fromBufferOverflow b.maxSize)) ∧
      ((b.buffer.length : Int) + chunk.length ≤ b.maxSize →
        bufAppend b chunk = Except.ok
          { b with buffer := b.buffer ++ chunk,
                   totalBytesProcessed := b.totalBytesProcessed + chunk.length }) ∧
      (∀ e, bufAppend b chunk = Except.error e → e.code = ParserErrorCode.bufferOverflow ∧
        applyBufOp b (BufOp.append chunk) = b)) ∧
    (∀ ops : List BufOp, (b.buffer.length : Int) ≤ b.maxSize →
      ((ops.foldl applyBufOp b).buffer.length : Int) ≤ (ops.foldl applyBufOp b).maxSize ∧
        (ops.foldl applyBufOp b).maxSize = b.maxSize) := by
  constructor
  · refine ⟨fun h => ?_, fun h => ?_, fun e he => ?_⟩
    · simp only [bufAppend, if_pos h]
    · simp only [bufAppend, if_neg (not_lt.mpr h)]
    · have hov : (b.buffer.length : Int) + chunk.length > b.maxSize := by
        by_contra hc
        simp only [bufAppend, if_neg hc] at he
        exact Except.noConfusion he
      constructor
      · simp only [bufAppend, if_pos hov, Except.error.injEq] at he
        rw [← he]
        rfl
      · simp only [applyBufOp, bufAppend, if_pos hov]
  · intro ops h
    refine ⟨foldl_bufOps_invariant ops b h, ?_⟩
    induction ops generalizing b with
    | nil => rfl
    | cons op rest ih =>
        simp only [List.foldl_cons]
        rw [ih (applyBufOp b op)]
        · exact applyBufOp_maxSize b op
        · exact applyBufOp_len_le b op h

/-- C2 witness: a concrete overflow rejection and a concrete in-bound
sequence of operations. -/
theorem C2_buffer_append_overflow_witness :
    ((3 : Int) + 3 > 5 →
      bufAppend { buffer := "abc".toList, maxSize := 5, totalBytesProcessed := 3 }
          "def".toList =
        Except.error (ParserError.fromBufferOverflow 5)) ∧
    (([BufOp.append "ab".toList, BufOp.append "cde".toList, BufOp.clear].foldl applyBufOp
        (BufferState.mk0 5)).buffer.length : Int) ≤
      ([BufOp.append "ab".toList, BufOp.append "cde".toList, BufOp.clear].foldl applyBufOp
        (BufferState.mk0 5)).maxSize := by
  constructor
  · exact (C2_buffer_append_overflow
      { buffer := "abc".toList, maxSize := 5, totalBytesProcessed := 3 } "def".toList).1.1
  · exact ((C2_buffer_append_overflow (BufferState.mk0 5) []).2
      [BufOp.append "ab".toList, BufOp.append "cde".toList, BufOp.clear] (by decide)).1

/-- C9 counterexample: constructing an engine with `maxBufferSize = 0` is
not rejected — `validateConfig` would flag the value, but the constructor
never invokes it, so the engine operates with the out-of-range limit. -/
theorem C9_counterexample :
    validateConfig { maxBufferSize := Option.some 0 } =
      ["maxBufferSize must be greater than 0"] ∧
    (mkEngine { maxBufferSize := Option.some 0 }).config.maxBufferSize = 0 ∧
    (mkEngine { maxBufferSize := Option.some 0 }).buf.maxSize = 0 :=
  ⟨rfl, rfl, rfl⟩

/-- C9 amended: `validateConfig` flags exactly the configurations with
`maxBufferSize ≤ 0` or `> 100 MiB`, or `maxDepth ≤ 0` or `> 1000`; but
engine construction applies `mergeConfig` without consulting
`validateConfig`, so any configured numeric value — in range or not — is
adopted verbatim. -/
theorem C9_amended (c : ParserConfig) :
    (validateConfig c = [] ↔
      ((∀ v, c.maxBufferSize = Option.some v → 0 < v ∧ v ≤ 100 * 1024 * 1024) ∧
       (∀ v, c.maxDepth = Option.some v → 0 < v ∧ v ≤ 1000))) ∧
    (∀ v, c.maxBufferSize = Option.some v → (mkEngine c).config.maxBufferSize = v) ∧
    (∀ v, c.maxDepth = Option.some v → (mkEngine c).config.maxDepth = v) := by
  obtain ⟨cs, tw, mbs, pao, md, pw, ac, en⟩ := c
  refine ⟨?_, ?_, ?_⟩
  · cases mbs with
    | none =>
        cases md with
        | none => simp [validateConfig]
        | some v =>
            constructor
            · intro h
              simp only [validateConfig] at h
              refine ⟨fun w hw => Option.noConfusion hw, fun w hw => ?_⟩
              obtain rfl : v = w := by simpa using hw
              by_cases h1 : v ≤ 0 <;> by_cases h2 : (1000 : Int) < v <;>
                simp [h1, h2] at h ⊢ <;> omega
            · rintro ⟨-, h2⟩
              obtain ⟨h3, h4⟩ := h2 v rfl
              simp only [validateConfig]
              simp only [if_neg (by omega : ¬v ≤ 0), if_neg (by omega : ¬(1000 : Int) < v)]
              simp
    | some u =>
        cases md with
        | none =>
            constructor
            · intro h
              simp only [validateConfig] at h
              refine ⟨fun w hw => ?_, fun w hw => Option.noConfusion hw⟩
              obtain rfl : u = w := by simpa using hw
              by_cases h1 : u ≤ 0 <;> by_cases h2 : (100 * 1024 * 1024 : Int) < u <;>
                simp [h1, h2] at h ⊢ <;> omega
            · rintro ⟨h2, -⟩
              obtain ⟨h3, h4⟩ := h2 u rfl
              simp only [validateConfig]
              simp only [if_neg (by omega : ¬u ≤ 0),
                if_neg (by omega : ¬(100 * 1024 * 1024 : Int) < u)]
              simp
        | some v =>
            constructor
            · intro h
              simp only [validateConfig] at h
              refine ⟨fun w hw => ?_, fun w hw => ?_⟩
              · obtain rfl : u = w := by simpa using hw
                by_cases h1 : u ≤ 0 <;> by_cases h2 : (100 * 1024 * 1024 : Int) < u <;>
                  by_cases h3 : v ≤ 0 <;> by_cases h4 : (1000 : Int) < v <;>
                  simp [h1, h2, h3, h4] at h ⊢ <;> omega
              · obtain rfl : v = w := by simpa using hw
                by_cases h1 : u ≤ 0 <;> by_cases h2 : (100 * 1024 * 1024 : Int) < u <;>
                  by_cases h3 : v ≤ 0 <;> by_cases h4 : (1000 : Int) < v <;>
                  simp [h1, h2, h3, h4] at h ⊢ <;> omega
            · rintro ⟨h2, h3⟩
              obtain ⟨hu1, hu2⟩ := h2 u rfl
              obtain ⟨hv1, hv2⟩ := h3 v rfl
              simp only [validateConfig]
              simp only [if_neg (by omega : ¬u ≤ 0), if_neg (by omega : ¬v ≤ 0),
                if_neg (by omega : ¬(100 * 1024 * 1024 : Int) < u),
                if_neg (by omega : ¬(1000 : Int) < v)]
              simp
  · intro v hv
    simp only [] at hv
    simp [mkEngine, mergeConfig, show mbs = Option.some v from hv]
  · intro v hv
    simp only [] at hv
    simp [mkEngine, mergeConfig, show md = Option.some v from hv]

/-- C9 witness: the amended theorem applied to a concrete in-range and a
concrete out-of-range configuration. -/
theorem C9_amended_witness :
    (validateConfig { maxBufferSize := Option.some 7, maxDepth := Option.some 3 } = []) ∧
    (mkEngine { maxBufferSize := Option.some 7, maxDepth := Option.some 3 }
      ).config.maxBufferSize = 7 := by
  constructor
  · exact (C9_amended { maxBufferSize := Option.some 7, maxDepth := Option.some 3 }).1.mpr
      ⟨fun v hv => by simp at hv; omega, fun v hv => by simp at hv; omega⟩
  · exact (C9_amended { maxBufferSize := Option.some 7, maxDepth := Option.some 3 }).2.1 7 rfl

/-- C4: the fixed attribute-value coercion order — pure digits decode to
an integer, digits with one decimal point to a float, literal `true` /
`false` to booleans, anything else stays a string, and a bare attribute
decodes to boolean `true`; the spec example decodes with exactly those
types. -/
theorem C4_attribute_coercion :
    (∀ s : List Char, isAllDigits s = true →
        parseAttributeValueStr s = AttrValue.intV (digitsToNat s)) ∧
    (∀ s : List Char, isAllDigits s = false → isFloatShape s = true →
        parseAttributeValueStr s = AttrValue.floatV s) ∧
    (parseAttributeValueStr "true".toList = AttrValue.boolV true ∧
      parseAttributeValueStr "false".toList = AttrValue.boolV false) ∧
    (∀ s : List Char, isAllDigits s = false → isFloatShape s = false →
        s ≠ "true".toList → s ≠ "false".toList →
        parseAttributeValueStr s = AttrValue.strV s) ∧
    parseAttributes "checked".toList =
      Option.some [("checked".toList, AttrValue.boolV true)] ∧
    parseAttributes "count=42 price=19.99 active=true disabled=false".toList =
      Option.some [("count".toList, AttrValue.intV 42),
        ("price".toList, AttrValue.floatV "19.99".toList),
        ("active".toList, AttrValue.boolV true),
        ("disabled".toList, AttrValue.boolV false)] := by
  refine ⟨?_, ?_, ⟨by decide, by decide⟩, ?_, by decide, by decide⟩
  · intro s h
    simp [parseAttributeValueStr, h]
  · intro s h1 h2
    simp [parseAttributeValueStr, h1, h2]
  · intro s h1 h2 h3 h4
    have h3a : s ≠ ['t', 'r', 'u', 'e'] := by simpa using h3
    have h4a : s ≠ ['f', 'a', 'l', 's', 'e'] := by simpa using h4
    simp [parseAttributeValueStr, h1, h2, h3a, h4a]

/-- C4 witness: the coercion cases applied at concrete inputs. -/
theorem C4_attribute_coercion_witness :
    parseAttributeValueStr "42".toList = AttrValue.intV 42 ∧
    parseAttributeValueStr "19.99".toList = AttrValue.floatV "19.99".toList ∧
    parseAttributeValueStr "hello".toList = AttrValue.strV "hello".toList := by
  refine ⟨?_, ?_, ?_⟩
  · have h := C4_attribute_coercion.1 "42".toList (by decide)
    simpa using h
  · exact C4_attribute_coercion.2.1 "19.99".toList (by decide) (by decide)
  · exact C4_attribute_coercion.2.2.2.1 "hello".toList (by decide) (by decide)
      (by decide) (by decide)

theorem bufConsume_total (b : BufferState) (n : Nat) :
    (bufConsume b n).2.totalBytesProcessed = b.totalBytesProcessed := by
  simp only [bufConsume]
  split
  · rfl
  · split <;> rfl

theorem bufConsume_maxSize (b : BufferState) (n : Nat) :
    (bufConsume b n).2.maxSize = b.maxSize := by
  simp only [bufConsume]
  split
  · rfl
  · split <;> rfl

theorem removeProcessedContent_total (ms : List TagMatch) (e : Engine) :
    (removeProcessedContent ms e).buf.totalBytesProcessed = e.buf.totalBytesProcessed := by
  simp only [removeProcessedContent]
  cases ms.getLast? with
  | none => rfl
  | some m => exact bufConsume_total e.buf m.endIndex

theorem processFlatLoop_engine (e : Engine) (ms : List TagMatch) :
    (processFlatLoop e ms).1 =
      { e with stats := { e.stats with totalTagsParsed :=
          e.stats.totalTagsParsed + (processFlatLoop e ms).2.2.length } } := by
  induction ms generalizing e with
  | nil => simp [processFlatLoop]
  | cons m ms ih =>
      simp only [processFlatLoop]
      cases h : (processTagFlat m e).2 with
      | ok tag =>
          simp only [h, List.length_cons]
          rw [ih]
          have harith : e.stats.totalTagsParsed + 1 +
              (processFlatLoop
                { e with stats :=
                  { e.stats with totalTagsParsed := e.stats.totalTagsParsed + 1 } }
                ms).2.2.length =
              e.stats.totalTagsParsed +
              ((processFlatLoop
                { e with stats :=
                  { e.stats with totalTagsParsed := e.stats.totalTagsParsed + 1 } }
                ms).2.2.length + 1) := by omega
          rw [harith]
      | error pe =>
          simp only [h]
          rw [ih]

/-- C8 counterexample: after activity of 2 bytes, `reset()` zeroes the
stats snapshot, but a following `parse("xyz")` reports
`totalBytesProcessed = 5` (cumulative since construction), not the 3
bytes appended since the reset, because `BufferManager.clear` does not
reset its counter and `updateStats` copies it back. -/
theorem C8_counterexample :
    (getStats (reset (parse (mkEngine {}) "ab".toList).1).1).totalBytesProcessed = 0 ∧
    (getStats (parse (reset (parse (mkEngine {}) "ab".toList).1).1
        "xyz".toList).1).totalBytesProcessed = 5 ∧
    (5 : Nat) ≠ 3 := by
  refine ⟨rfl, ?_, by decide⟩
  rfl

/-- C8 amended: `reset()` always yields the all-zero statistics record
and an empty buffer; however the buffer manager's cumulative
total-processed counter survives the reset, so a flat-mode `parse(chunk)`
after the reset reports `totalBytesProcessed` equal to all bytes appended
since construction (old total plus the new chunk), not just the bytes
appended since the reset. -/
theorem C8_reset_amended (e : Engine) :
    (reset e).1.stats = initializeStats ∧
    getBufferSize (reset e).1 = 0 ∧
    (reset e).1.buf.totalBytesProcessed = e.buf.totalBytesProcessed ∧
    (∀ chunk : List Char,
      e.config.enableNested = false →
      (chunk.length : Int) ≤ e.buf.maxSize →
      (parse (reset e).1 chunk).1.stats.totalBytesProcessed =
        e.buf.totalBytesProcessed + chunk.length) := by
  refine ⟨rfl, rfl, rfl, ?_⟩
  intro chunk hflat hle
  simp only [parse, reset]
  have happ : bufAppend (bufClear e.buf) chunk =
      Except.ok { buffer := [] ++ chunk, maxSize := e.buf.maxSize,
                  totalBytesProcessed := e.buf.totalBytesProcessed + chunk.length } := by
    simp only [bufAppend, bufClear]
    rw [if_neg]
    simp only [List.length_nil, Nat.cast_zero, zero_add, not_lt]
    exact hle
  rw [happ]
  simp only [hflat, Bool.false_eq_true, if_false, processBufferFlat]
  rw [processFlatLoop_engine]
  simp [updateStats, removeProcessedContent_total, bufClear]

/-- C8 witness: the amended statement applied to the concrete engine of
the counterexample. -/
theorem C8_reset_amended_witness :
    (parse (reset (parse (mkEngine {}) "ab".toList).1).1 "xyz".toList
      ).1.stats.totalBytesProcessed =
      (parse (mkEngine {}) "ab".toList).1.buf.totalBytesProcessed + 3 := by
  exact (C8_reset_amended (parse (mkEngine {}) "ab".toList).1).2.2.2 "xyz".toList
    (by rfl) (by decide)

/-- C7 counterexample: in nested mode the run `" "` between `<a>` and
`<b>` is whitespace-only while the record `a` is open; the claim says it
is appended to `a` and raises `tag_content_update`, but the engine drops
it — the trace holds exactly the four open/start notifications and both
open records keep empty content. -/
theorem C7_counterexample :
    (parse (mkEngine { enableNested := Option.some true }) "<a> <b>".toList).2 =
      [Event.tagOpened "a".toList 1 "a".toList,
       Event.tagStarted "a".toList (Option.some []),
       Event.tagOpened "b".toList 2 "a/b".toList,
       Event.tagStarted "b".toList (Option.some [])] ∧
    ((parse (mkEngine { enableNested := Option.some true }) "<a> <b>".toList).1.tagStack.map
        (fun en => en.tag.content)) = [[], []] ∧
    (parse (mkEngine { enableNested := Option.some true }) "<a> <b>".toList).1.state =
      PState.completed :=
  ⟨rfl, rfl, rfl⟩

/-- C7 amended: a text run between two matches is appended to the
innermost open record's content with a `tag_content_update` notification
exactly when the run is not whitespace-only and at least one record is
open; whitespace-only runs are always dropped (even while a record is
open), and non-whitespace runs with no open record are dropped as well. -/
theorem C7_text_content_amended :
    (∀ (text : List Char) (e : Engine), trimJs text = [] →
        handleTextContent text e = (e, [])) ∧
    (∀ (text : List Char) (e : Engine), trimJs text ≠ [] → e.tagStack = [] →
        handleTextContent text e = (e, [])) ∧
    (∀ (text : List Char) (e : Engine) (entry : TagStackEntry)
        (rest : List TagStackEntry), trimJs text ≠ [] → e.tagStack = entry :: rest →
        handleTextContent text e =
          ({ e with tagStack :=
              { entry with tag :=
                { entry.tag with content := entry.tag.content ++ text } } :: rest },
           [Event.tagContentUpdate entry.tag.tagName text])) := by
  refine ⟨?_, ?_, ?_⟩
  · intro text e h
    simp [handleTextContent, h]
  · intro text e h1 h2
    simp [handleTextContent, List.isEmpty_iff, h1, h2]
  · intro text e entry rest h1 h2
    simp [handleTextContent, List.isEmpty_iff, h1, h2]

/-- C7 amended witness: the three clauses applied at concrete inputs —
the engine with `a` open comes from parsing `"<a>"`. -/
theorem C7_text_content_amended_witness :
    handleTextContent " ".toList (mkEngine { enableNested := Option.some true }) =
      (mkEngine { enableNested := Option.some true }, []) ∧
    handleTextContent "hi".toList (mkEngine { enableNested := Option.some true }) =
      (mkEngine { enableNested := Option.some true }, []) ∧
    (handleTextContent "hi".toList
        (parse (mkEngine { enableNested := Option.some true }) "<a>".toList).1).2 =
      [Event.tagContentUpdate "a".toList "hi".toList] := by
  refine ⟨C7_text_content_amended.1 " ".toList _ (by decide),
    C7_text_content_amended.2.1 "hi".toList _ (by decide) rfl, ?_⟩
  rw [C7_text_content_amended.2.2 "hi".toList
    (parse (mkEngine { enableNested := Option.some true }) "<a>".toList).1
    { tag := { tagName := "a".toList, content := [], attributes := [], children := [],
               depth := 1, path := "a".toList, isSelfClosing := false },
      startIndex := 0, depth := 1, path := "a".toList } [] (by decide) rfl]

theorem processTagFlat_unknown (e : Engine) (m : TagMatch)
    (h : regGet e.registry m.tagName = Option.none) :
    processTagFlat m e = ([], Except.error (ParserError.fromUnknownTag m.tagName)) := by
  simp [processTagFlat, h]

/-- C6: a flat-mode match with no registered definition throws
`UnknownTag`, which the per-match loop catches and reports as a
`parse_error` with that match as context before continuing with the
remaining matches unchanged; on the spec example, parsing
`"<known>ok</known><unknown>x</unknown>"` with only `known` registered
completes with exactly one completed `known` record and exactly one
`parse_error` carrying `UnknownTag` for `unknown`. -/
theorem C6_unknown_tag_flat :
    (∀ (e : Engine) (m : TagMatch) (ms : List TagMatch),
      regGet e.registry m.tagName = Option.none →
      processFlatLoop e (m :: ms) =
        ((processFlatLoop e ms).1,
         Event.parseErrorEv (ParserError.fromUnknownTag m.tagName)
             (ErrContext.tagMatchCtx m) :: (processFlatLoop e ms).2.1,
         (processFlatLoop e ms).2.2)) ∧
    ((parse (defineTag (mkEngine {}) { tagName := "known".toList }).1
        "<known>ok</known><unknown>x</unknown>".toList).2.countP
      (isCompletedFlatNamed "known".toList) = 1 ∧
     (parse (defineTag (mkEngine {}) { tagName := "known".toList }).1
        "<known>ok</known><unknown>x</unknown>".toList).2.countP isParseErrorEvB = 1 ∧
     (parse (defineTag (mkEngine {}) { tagName := "known".toList }).1
        "<known>ok</known><unknown>x</unknown>".toList).2.countP
      (isParseErrorEq (ParserError.fromUnknownTag "unknown".toList)) = 1 ∧
     (parse (defineTag (mkEngine {}) { tagName := "known".toList }).1
        "<known>ok</known><unknown>x</unknown>".toList).1.stats.totalTagsParsed = 1 ∧
     (parse (defineTag (mkEngine {}) { tagName := "known".toList }).1
        "<known>ok</known><unknown>x</unknown>".toList).1.state = PState.completed) := by
  constructor
  · intro e m ms h
    simp only [processFlatLoop, processTagFlat_unknown e m h]
    simp
  · exact ⟨rfl, rfl, rfl, rfl, rfl⟩

/-- C6 witness: the loop clause applied to the concrete unknown match of
the spec example. -/
theorem C6_unknown_tag_flat_witness :
    processFlatLoop (defineTag (mkEngine {}) { tagName := "known".toList }).1
        [{ tagName := "unknown".toList, content := "x".toList,
           attributes := Option.none, startIndex := 17, endIndex := 37,
           fullMatch := "<unknown>x</unknown>".toList, ttype := TagType.complete }] =
      ((defineTag (mkEngine {}) { tagName := "known".toList }).1,
       [Event.parseErrorEv (ParserError.fromUnknownTag "unknown".toList)
          (ErrContext.tagMatchCtx
            { tagName := "unknown".toList, content := "x".toList,
              attributes := Option.none, startIndex := 17, endIndex := 37,
              fullMatch := "<unknown>x</unknown>".toList, ttype := TagType.complete })],
       []) := by
  rw [C6_unknown_tag_flat.1 (defineTag (mkEngine {}) { tagName := "known".toList }).1
    { tagName := "unknown".toList, content := "x".toList,
      attributes := Option.none, startIndex := 17, endIndex := 37,
      fullMatch := "<unknown>x</unknown>".toList, ttype := TagType.complete } []
    rfl]
  rfl

/-- C3: the auto-close recovery is broken when no stack entry matches the
closer.  On `"<a></b>"` (auto-close on) every open entry is indeed popped
and completed and the stack empties, but the unconditional
`this.tagStack.pop()!.tag` then dereferences `undefined`; the resulting
`TypeError` is caught by `parse` and surfaces as a generic
`INVALID_TAG_FORMAT` `parse_error` with the engine in `"error"` state —
not the clean no-failure completion the claim describes.  With a matching
entry present (`"<a><b></a>"`) the sweep recovers cleanly, and with
auto-close disabled the same input fails with `MismatchedClosingTag`
carrying both names, as claimed. -/
theorem C3_autoclose_empty_stack_bug :
    ((parse (mkEngine { enableNested := Option.some true }) "<a></b>".toList).1.state =
        PState.error ∧
     (parse (mkEngine { enableNested := Option.some true }) "<a></b>".toList
        ).1.stats.errorCount = 1 ∧
     (parse (mkEngine { enableNested := Option.some true }) "<a></b>".toList).1.tagStack =
        [] ∧
     (parse (mkEngine { enableNested := Option.some true }) "<a></b>".toList).2.countP
        (isClosedNamed "a".toList) = 1 ∧
     (parse (mkEngine { enableNested := Option.some true }) "<a></b>".toList).2.countP
        (isCompletedNamed "a".toList) = 1 ∧
     (parse (mkEngine { enableNested := Option.some true }) "<a></b>".toList).2.countP
        (isParseErrorCode ParserErrorCode.invalidTagFormat) = 1 ∧
     (parse (mkEngine { enableNested := Option.some true }) "<a></b>".toList).1.buf.buffer =
        "<a></b>".toList) ∧
    ((parse (mkEngine { enableNested := Option.some true }) "<a><b></a>".toList).1.state =
        PState.completed ∧
     (parse (mkEngine { enableNested := Option.some true }) "<a><b></a>".toList).2.countP
        isParseErrorEvB = 0 ∧
     (parse (mkEngine { enableNested := Option.some true }) "<a><b></a>".toList).2.countP
        (isClosedNamed "b".toList) = 1 ∧
     (parse (mkEngine { enableNested := Option.some true }) "<a><b></a>".toList).2.countP
        (isClosedNamed "a".toList) = 1 ∧
     (parse (mkEngine { enableNested := Option.some true }) "<a><b></a>".toList).1.tagStack =
        []) ∧
    ((parse (mkEngine { enableNested := Option.some true,
                        autoCloseUnclosed := Option.some false }) "<a></b>".toList).1.state =
        PState.error ∧
     (parse (mkEngine { enableNested := Option.some true,
                        autoCloseUnclosed := Option.some false }) "<a></b>".toList).2.countP
        (isParseErrorEq (ParserError.fromMismatchedClosing "a".toList "b".toList)) = 1) :=
  ⟨⟨rfl, rfl, rfl, rfl, rfl, rfl, rfl⟩, ⟨rfl, rfl, rfl, rfl, rfl⟩, ⟨rfl, rfl⟩⟩

/-- C10: in nested mode, an opening tag with no registered definition is
processed like a registered one — below the depth ceiling it is pushed
with parent/path/depth bookkeeping, counted in `totalNestedTags` and
`maxDepthReached`, and announced with `tag_opened` / `tag_started`
(only the lifecycle callback is skipped); completing such a tag skips
only validation / transformation / `onComplete` and still counts it and
emits `tag_closed` / `tag_completed` (/ `subtree_completed`).  At the
public interface, parsing `"<x>hi</x>"` with an empty registry produces
the same notification trace as with the bare definition `{tagName: "x"}`
registered, with no `UnknownTag` (or any) error. -/
theorem C10_unregistered_nested :
    (∀ (e : Engine) (m : TagMatch), regGet e.registry m.tagName = Option.none →
      (e.currentDepth : Int) < e.config.maxDepth →
      handleOpeningTag m e =
        ({ e with
            currentDepth := e.currentDepth + 1,
            currentPath := buildPath e m.tagName,
            stats := { e.stats with
              maxDepthReached := max e.stats.maxDepthReached (e.currentDepth + 1),
              totalNestedTags := e.stats.totalNestedTags + 1 },
            tagStack :=
              { tag := { tagName := m.tagName, content := [],
                         attributes := mergeAttrs [] (m.attributes.getD []),
                         children := [], depth := e.currentDepth + 1,
                         path := buildPath e m.tagName, isSelfClosing := false },
                startIndex := m.startIndex, depth := e.currentDepth + 1,
                path := buildPath e m.tagName } :: e.tagStack },
         [Event.tagOpened m.tagName (e.currentDepth + 1) (buildPath e m.tagName),
          Event.tagStarted m.tagName
            (Option.some (mergeAttrs [] (m.attributes.getD [])))],
         Option.none)) ∧
    (∀ (e : Engine) (tag : NestedTag), regGet e.registry tag.tagName = Option.none →
      completeTagStep tag e =
        (tag,
         { e with stats :=
             { e.stats with totalTagsParsed := e.stats.totalTagsParsed + 1 } },
         [Event.tagClosed tag tag.depth tag.path, Event.tagCompleted tag] ++
           (if tag.children.isEmpty then []
            else [Event.subtreeCompleted tag tag.depth]),
         Option.none)) ∧
    ((parse (mkEngine { enableNested := Option.some true }) "<x>hi</x>".toList).2 =
      (parse (defineTag (mkEngine { enableNested := Option.some true })
          { tagName := "x".toList }).1 "<x>hi</x>".toList).2 ∧
     (parse (mkEngine { enableNested := Option.some true }) "<x>hi</x>".toList).2.countP
        (isClosedNamed "x".toList) = 1 ∧
     (parse (mkEngine { enableNested := Option.some true }) "<x>hi</x>".toList).2.countP
        (isCompletedNamed "x".toList) = 1 ∧
     (parse (mkEngine { enableNested := Option.some true }) "<x>hi</x>".toList).2.countP
        isParseErrorEvB = 0 ∧
     (parse (mkEngine { enableNested := Option.some true }) "<x>hi</x>".toList
        ).1.stats.totalTagsParsed = 1 ∧
     (parse (mkEngine { enableNested := Option.some true }) "<x>hi</x>".toList
        ).1.stats.totalNestedTags = 1 ∧
     (parse (mkEngine { enableNested := Option.some true }) "<x>hi</x>".toList).1.state =
        PState.completed) := by
  refine ⟨?_, ?_, rfl, rfl, rfl, rfl, rfl, rfl, rfl⟩
  · intro e m hreg hdepth
    simp only [handleOpeningTag, hreg]
    rw [if_neg (not_le.mpr hdepth)]
    simp [Nat.max_def, max_def]
  · intro e tag hreg
    simp only [completeTagStep, hreg, completeTagStep.completeEmit, List.nil_append]

/-- C10 witness: both clauses applied at the concrete opening and closing
of an unregistered `x` on the empty-registry nested engine. -/
theorem C10_unregistered_nested_witness :
    (handleOpeningTag
        { tagName := "x".toList, content := [], attributes := Option.none,
          startIndex := 0, endIndex := 3, fullMatch := "<x>".toList,
          ttype := TagType.opening }
        (mkEngine { enableNested := Option.some true })).2.1 =
      [Event.tagOpened "x".toList 1 "x".toList,
       Event.tagStarted "x".toList (Option.some [])] ∧
    (completeTagStep (NestedTag.node "x".toList "hi".toList [] [] 1 "x".toList false)
        (mkEngine { enableNested := Option.some true })).2.2.1 =
      [Event.tagClosed (NestedTag.node "x".toList "hi".toList [] [] 1 "x".toList false) 1
          "x".toList,
       Event.tagCompleted (NestedTag.node "x".toList "hi".toList [] [] 1 "x".toList false)] := by
  constructor
  · rw [C10_unregistered_nested.1 (mkEngine { enableNested := Option.some true })
      { tagName := "x".toList, content := [], attributes := Option.none,
        startIndex := 0, endIndex := 3, fullMatch := "<x>".toList,
        ttype := TagType.opening } rfl (by decide)]
    rfl
  · rw [C10_unregistered_nested.2.1 (mkEngine { enableNested := Option.some true })
      (NestedTag.node "x".toList "hi".toList [] [] 1 "x".toList false) rfl]
    rfl

theorem attachChild_stats (t : NestedTag) (e : Engine) :
    (attachChild t e).stats = e.stats := by
  simp only [attachChild]
  split <;> rfl

theorem completeTagStep_errorCount (t : NestedTag) (e : Engine) :
    (completeTagStep t e).2.1.stats.errorCount = e.stats.errorCount := by
  simp only [completeTagStep]
  rcases regGet e.registry t.tagName with _ | d
  · rfl
  · simp only []
    rcases runValidate d t.tagName t.content (Option.some t.attributes)
      (Option.some t.children) with _ | pe
    · rfl
    · rfl

theorem popAndComplete_errorCount (e : Engine) (entry : TagStackEntry)
    (rest : List TagStackEntry) :
    (popAndComplete e entry rest).2.1.stats.errorCount = e.stats.errorCount := by
  simp only [popAndComplete]
  split
  · rw [show (attachChild (completeTagStep entry.tag.toNested
        { e with tagStack := rest }).1 (completeTagStep entry.tag.toNested
        { e with tagStack := rest }).2.1).stats = _ from attachChild_stats _ _]
    exact completeTagStep_errorCount _ _
  · show (attachChild _ _).stats.errorCount = _
    rw [attachChild_stats]
    exact completeTagStep_errorCount _ _

theorem autoCloseTag_errorCount (e : Engine) :
    (autoCloseTag e).1.stats.errorCount = e.stats.errorCount := by
  simp only [autoCloseTag]
  split
  · rfl
  · exact popAndComplete_errorCount _ _ _

theorem autoCloseWhile_errorCount (name : List Char) (fuel : Nat) (e : Engine) :
    (autoCloseWhile name fuel e).1.stats.errorCount = e.stats.errorCount := by
  induction fuel generalizing e with
  | zero => rfl
  | succ n ih =>
      simp only [autoCloseWhile]
      split
      · rfl
      · split
        · rfl
        · split
          · rw [ih]
            exact popAndComplete_errorCount _ _ _
          · exact popAndComplete_errorCount _ _ _

theorem handleOpeningTag_errorCount (m : TagMatch) (e : Engine) :
    (handleOpeningTag m e).1.stats.errorCount = e.stats.errorCount := by
  simp only [handleOpeningTag]
  split
  · rfl
  · rfl

theorem handleClosingTag_errorCount (m : TagMatch) (e : Engine) :
    (handleClosingTag m e).1.stats.errorCount = e.stats.errorCount := by
  unfold handleClosingTag
  cases htop : e.tagStack with
  | nil => rfl
  | cons top rest0 =>
      simp only []
      by_cases hne : top.tag.tagName ≠ m.tagName
      · rw [if_pos hne]
        by_cases hac : e.config.autoCloseUnclosed = true
        · rw [if_pos hac]
          have hw := autoCloseWhile_errorCount m.tagName ((top :: rest0).length + 1) e
          generalize hgen :
            autoCloseWhile m.tagName ((top :: rest0).length + 1) e = w at hw ⊢
          rcases w with ⟨e1, evs, err⟩
          cases err with
          | none =>
              simp only []
              cases h1 : e1.tagStack with
              | nil => exact hw
              | cons entry rest =>
                  simp only []
                  rw [popAndComplete_errorCount]
                  exact hw
          | some err => exact hw
        · rw [if_neg hac]
      · rw [if_neg hne]
        simp only []
        cases h1 : e.tagStack with
        | nil => rfl
        | cons entry rest =>
            simp only []
            rw [popAndComplete_errorCount]

theorem handleSelfClosingTag_errorCount (m : TagMatch) (e : Engine) :
    (handleSelfClosingTag m e).1.stats.errorCount = e.stats.errorCount := by
  simp only [handleSelfClosingTag]
  show (attachChild _ _).stats.errorCount = _
  rw [attachChild_stats]
  exact completeTagStep_errorCount _ _

theorem handleTextContent_errorCount (text : List Char) (e : Engine) :
    (handleTextContent text e).1.stats.errorCount = e.stats.errorCount := by
  simp only [handleTextContent]
  split
  · rfl
  · split <;> rfl

theorem processTagNested_errorCount (m : TagMatch) (e : Engine) :
    (processTagNested m e).1.stats.errorCount = e.stats.errorCount := by
  cases h : m.ttype with
  | opening =>
      simp only [processTagNested, h]
      exact handleOpeningTag_errorCount m e
  | closing =>
      simp only [processTagNested, h]
      exact handleClosingTag_errorCount m e
  | selfClosing =>
      simp only [processTagNested, h]
      exact handleSelfClosingTag_errorCount m e
  | complete => simp only [processTagNested, h]

theorem nestedLoop_errorCount (cs : Bool) (buffer : List Char) (fuel i : Nat)
    (e : Engine) :
    (nestedLoop cs buffer fuel i e).1.1.stats.errorCount = e.stats.errorCount := by
  induction fuel generalizing i e with
  | zero => rfl
  | succ n ih =>
      simp only [nestedLoop]
      split
      · cases hfind : findNextTag cs buffer i with
        | none => rfl
        | some m =>
            dsimp only
            have htext : ((if i < m.startIndex then
                  handleTextContent (extractTextContent buffer i m.startIndex) e
                  else (e, [])).1).stats.errorCount = e.stats.errorCount := by
              split
              · exact handleTextContent_errorCount _ _
              · rfl
            cases herr : (processTagNested m (if i < m.startIndex then
                handleTextContent (extractTextContent buffer i m.startIndex) e
                else (e, [])).1).2.2 with
            | some err =>
                dsimp only
                rw [processTagNested_errorCount]
                exact htext
            | none =>
                dsimp only
                rw [ih, processTagNested_errorCount]
                exact htext
      · rfl

theorem processBufferNested_errorCount (e : Engine) :
    (processBufferNested e).1.stats.errorCount = e.stats.errorCount := by
  simp only [processBufferNested]
  split
  · exact nestedLoop_errorCount _ _ _ _ _
  · split
    · exact nestedLoop_errorCount _ _ _ _ _
    · exact nestedLoop_errorCount _ _ _ _ _

theorem removeProcessedContent_stats (ms : List TagMatch) (e : Engine) :
    (removeProcessedContent ms e).stats = e.stats := by
  simp only [removeProcessedContent]
  cases ms.getLast? <;> rfl

theorem processBufferFlat_errorCount (e : Engine) :
    (processBufferFlat e).1.stats.errorCount = e.stats.errorCount := by
  simp only [processBufferFlat, updateStats]
  rw [removeProcessedContent_stats]
  rw [processFlatLoop_engine]

theorem processBufferFlat_err_none (e : Engine) :
    (processBufferFlat e).2.2 = Option.none := rfl

theorem parse_dichotomy (e : Engine) (chunk : List Char) :
    ((parse e chunk).1.state = PState.completed ∧
      (parse e chunk).1.stats.errorCount = e.stats.errorCount) ∨
    ((parse e chunk).1.state = PState.error ∧
      (parse e chunk).1.stats.errorCount = e.stats.errorCount + 1 ∧
      ∃ pe : ParserError,
        Event.parseErrorEv pe (ErrContext.chunk chunk) ∈ (parse e chunk).2) := by
  simp only [parse]
  cases happ : bufAppend { e with state := PState.parsing }.buf chunk with
  | error pe =>
      right
      refine ⟨rfl, rfl, pe, ?_⟩
      simp [parseCatch]
  | ok b =>
      dsimp only
      by_cases hn : e.config.enableNested = true
      · simp only [hn, if_true]
        cases herr : (processBufferNested
            { e with state := PState.parsing, buf := b }).2.2 with
        | none =>
            left
            refine ⟨rfl, ?_⟩
            show (processBufferNested _).1.stats.errorCount = _
            rw [processBufferNested_errorCount]
        | some jserr =>
            right
            refine ⟨rfl, ?_, ?_⟩
            · show (processBufferNested _).1.stats.errorCount + 1 = _
              rw [processBufferNested_errorCount]
            · cases jserr with
              | parser p => exact ⟨p, by simp [parseCatch]⟩
              | typeErrorUndefinedTag =>
                  exact ⟨{ message :=
                             "Unexpected error: Cannot read properties of undefined".toList,
                           code := ParserErrorCode.invalidTagFormat },
                         by simp [parseCatch]⟩
      · simp only [hn, Bool.false_eq_true, if_false]
        rw [processBufferFlat_err_none]
        left
        refine ⟨rfl, ?_⟩
        show (processBufferFlat _).1.stats.errorCount = _
        rw [processBufferFlat_errorCount]

/-- C1: `parse(chunk)` is total on every engine state (with observers
modelled as non-throwing trace sinks): either it ends in the
`"completed"` state with the error counter untouched, or an internal
failure was caught, the state is `"error"`, the error counter went up by
exactly one, and the trace carries a `parse_error` notification with the
triggering chunk as context; and the engine accepts a subsequent `parse`
call either way, with the same dichotomy. -/
theorem C1_parse_never_throws (e : Engine) (chunk next : List Char) :
    (((parse e chunk).1.state = PState.completed ∧
        (parse e chunk).1.stats.errorCount = e.stats.errorCount) ∨
      ((parse e chunk).1.state = PState.error ∧
        (parse e chunk).1.stats.errorCount = e.stats.errorCount + 1 ∧
        ∃ pe : ParserError,
          Event.parseErrorEv pe (ErrContext.chunk chunk) ∈ (parse e chunk).2)) ∧
    (((parse (parse e chunk).1 next).1.state = PState.completed ∧
        (parse (parse e chunk).1 next).1.stats.errorCount =
          (parse e chunk).1.stats.errorCount) ∨
      ((parse (parse e chunk).1 next).1.state = PState.error ∧
        (parse (parse e chunk).1 next).1.stats.errorCount =
          (parse e chunk).1.stats.errorCount + 1 ∧
        ∃ pe : ParserError,
          Event.parseErrorEv pe (ErrContext.chunk next) ∈
            (parse (parse e chunk).1 next).2)) :=
  ⟨parse_dichotomy e chunk, parse_dichotomy (parse e chunk).1 next⟩

theorem runLen_take_all (p : Char → Bool) :
    ∀ l : List Char, (l.take (runLen p l)).all p = true := by
  intro l
  induction l with
  | nil => rfl
  | cons c cs ih =>
      simp only [runLen]
      by_cases hc : p c
      · simp [hc, List.take, ih]
      · simp [hc]

theorem runLen_append (p : Char → Bool) (ws : List Char) (c : Char)
    (rest : List Char) (hws : ws.all p = true) (hc : p c = false) :
    runLen p (ws ++ c :: rest) = ws.length := by
  induction ws with
  | nil => simp [runLen, hc]
  | cons w wtl ih =>
      simp only [List.all_cons, Bool.and_eq_true] at hws
      simp only [List.cons_append, runLen, hws.1, if_true, List.length_cons]
      exact congrArg (fun x => x + 1) (ih hws.2)

theorem idxOfGt_spec : ∀ (l : List Char) (g : Nat), idxOfGt l = Option.some g →
    g < l.length ∧ l = l.take g ++ '>' :: l.drop (g + 1) := by
  intro l
  induction l with
  | nil => intro g h; exact Option.noConfusion h
  | cons c tl ih =>
      intro g h
      by_cases hc : c = '>'
      · simp only [idxOfGt, hc, if_pos rfl] at h
        obtain rfl : (0 : Nat) = g := Option.some.inj h
        subst hc
        simp
      · simp only [idxOfGt, if_neg hc] at h
        cases hidx : idxOfGt tl with
        | none => rw [hidx] at h; exact Option.noConfusion h
        | some g0 =>
            rw [hidx] at h
            obtain rfl : g0 + 1 = g := Option.some.inj h
            obtain ⟨h1, h2⟩ := ih g0 hidx
            constructor
            · simpa using Nat.succ_lt_succ h1
            · calc c :: tl = c :: (tl.take g0 ++ '>' :: tl.drop (g0 + 1)) := by rw [← h2]
                _ = (c :: tl).take (g0 + 1) ++ '>' :: (c :: tl).drop (g0 + 1 + 1) := by
                    simp [List.take_succ_cons, List.drop_succ_cons]

theorem nameSplit_spec (l name rest0 : List Char)
    (h : nameSplit l = Option.some (name, rest0)) :
    l = name ++ rest0 ∧ name ≠ [] := by
  cases l with
  | nil => exact Option.noConfusion h
  | cons c tl =>
      simp only [nameSplit] at h
      by_cases hc : isNameStart c = true
      · rw [if_pos hc] at h
        obtain ⟨h1, h2⟩ := Prod.mk.inj (Option.some.inj h)
        subst h1
        subst h2
        constructor
        · simp [List.takeWhile_append_dropWhile]
        · simp
      · rw [if_neg hc] at h
        exact Option.noConfusion h

theorem closerLenAt_spec (raw l : List Char) (len : Nat)
    (h : closerLenAt raw l = Option.some len) :
    ∃ ws rest, ws.all isWs = true ∧
      l = '<' :: '/' :: raw ++ ws ++ '>' :: rest ∧
      len = raw.length + ws.length + 3 := by
  unfold closerLenAt at h
  split at h
  · next r0 =>
      split at h
      · next htake =>
          dsimp only at h
          split at h
          · next rest hdrop =>
              have hlen : 2 + raw.length + runLen isWs (r0.drop raw.length) + 1 = len :=
                Option.some.inj h
              refine ⟨(r0.drop raw.length).take (runLen isWs (r0.drop raw.length)),
                rest, runLen_take_all isWs (r0.drop raw.length), ?_, ?_⟩
              · have hr2 : r0.drop raw.length =
                    ((r0.drop raw.length).take (runLen isWs (r0.drop raw.length))) ++
                      '>' :: rest := by
                  conv_lhs => rw [← List.take_append_drop
                    (runLen isWs (r0.drop raw.length)) (r0.drop raw.length)]
                  rw [hdrop]
                have hr0 : r0 = raw ++ r0.drop raw.length := by
                  conv_lhs => rw [← List.take_append_drop raw.length r0]
                  rw [htake]
                conv_lhs => rw [hr0, hr2]
                simp
              · have hwsl :
                    ((r0.drop raw.length).take
                      (runLen isWs (r0.drop raw.length))).length =
                    runLen isWs (r0.drop raw.length) := by
                  rw [List.length_take]
                  exact Nat.min_eq_left (runLen_le isWs (r0.drop raw.length))
                rw [hwsl]
                omega
          · exact Option.noConfusion h
      · exact Option.noConfusion h
  · exact Option.noConfusion h

theorem firstSome_eq_some {α : Type} (f : Nat → Option α) :
    ∀ (fuel i : Nat) (a : α), firstSome f i fuel = Option.some a →
      ∃ j, i ≤ j ∧ j < i + fuel ∧ f j = Option.some a ∧
        ∀ k, i ≤ k → k < j → f k = Option.none := by
  intro fuel
  induction fuel with
  | zero => intro i a h; exact Option.noConfusion h
  | succ n ih =>
      intro i a h
      simp only [firstSome] at h
      cases hf : f i with
      | some b =>
          rw [hf] at h
          refine ⟨i, Nat.le_refl i, by omega, ?_, ?_⟩
          · rw [hf]; exact h
          · intro k hk1 hk2; omega
      | none =>
          rw [hf] at h
          obtain ⟨j, hj1, hj2, hj3, hj4⟩ := ih (i + 1) a h
          refine ⟨j, by omega, by omega, hj3, ?_⟩
          intro k hk1 hk2
          by_cases hki : k = i
          · subst hki; exact hf
          · exact hj4 k (by omega) hk2

theorem firstSome_eq_none {α : Type} (f : Nat → Option α) :
    ∀ (fuel i : Nat), firstSome f i fuel = Option.none →
      ∀ k, i ≤ k → k < i + fuel → f k = Option.none := by
  intro fuel
  induction fuel with
  | zero => intro i h k hk1 hk2; omega
  | succ n ih =>
      intro i h k hk1 hk2
      simp only [firstSome] at h
      cases hf : f i with
      | some b => rw [hf] at h; exact Option.noConfusion h
      | none =>
          rw [hf] at h
          by_cases hki : k = i
          · subst hki; exact hf
          · exact ih (i + 1) h k (by omega) (by omega)

theorem closerLenAt_of_shape (raw ws rest : List Char) (hws : ws.all isWs = true) :
    closerLenAt raw ('<' :: '/' :: (raw ++ ws ++ '>' :: rest)) =
      Option.some (raw.length + ws.length + 3) := by
  have hgtws : isWs '>' = false := by decide
  have htake : (raw ++ ws ++ '>' :: rest).take raw.length = raw := by
    rw [List.append_assoc]
    exact List.take_left raw (ws ++ '>' :: rest)
  have hdrop : (raw ++ ws ++ '>' :: rest).drop raw.length = ws ++ '>' :: rest := by
    rw [List.append_assoc]
    exact List.drop_left raw (ws ++ '>' :: rest)
  have hrun : runLen isWs (ws ++ '>' :: rest) = ws.length :=
    runLen_append isWs ws '>' rest hws hgtws
  have hdrop2 : (ws ++ '>' :: rest).drop ws.length = '>' :: rest :=
    List.drop_left ws ('>' :: rest)
  have hstep : closerLenAt raw ('<' :: '/' :: (raw ++ ws ++ '>' :: rest)) =
      (if (raw ++ ws ++ '>' :: rest).take raw.length = raw then
        match (raw ++ ws ++ '>' :: rest).drop raw.length |>.drop
            (runLen isWs ((raw ++ ws ++ '>' :: rest).drop raw.length)) with
        | '>' :: _ =>
            Option.some (2 + raw.length +
              runLen isWs ((raw ++ ws ++ '>' :: rest).drop raw.length) + 1)
        | _ => Option.none
      else Option.none) := rfl
  have h2 : (2 : Nat) + raw.length + ws.length + 1 = raw.length + ws.length + 3 := by
    omega
  rw [hstep, if_pos htake, hdrop, hrun, hdrop2, h2]
  rfl

theorem findCloser_spec (raw : List Char) : ∀ (l : List Char) (j clen : Nat),
    findCloser raw l = Option.some (j, clen) →
      j ≤ l.length ∧
      closerLenAt raw (l.drop j) = Option.some clen ∧
      ∀ k, k < j → closerLenAt raw (l.drop k) = Option.none := by
  intro l
  induction l with
  | nil => intro j clen h; exact Option.noConfusion h
  | cons c tl ih =>
      intro j clen h
      simp only [findCloser] at h
      cases hcl : closerLenAt raw (c :: tl) with
      | some len =>
          rw [hcl] at h
          obtain ⟨h1, h2⟩ := Prod.mk.inj (Option.some.inj h)
          subst h1; subst h2
          refine ⟨Nat.zero_le _, hcl, ?_⟩
          intro k hk; omega
      | none =>
          rw [hcl] at h
          cases hrec : findCloser raw tl with
          | none => rw [hrec] at h; exact Option.noConfusion h
          | some pr =>
              rw [hrec] at h
              simp only [Option.map_some] at h
              obtain ⟨h1, h2⟩ := Prod.mk.inj (Option.some.inj h)
              obtain ⟨j0, clen0⟩ := pr
              dsimp only at h1 h2
              subst h1; subst h2
              obtain ⟨ha, hb, hc⟩ := ih j0 clen0 hrec
              refine ⟨by simpa using Nat.succ_le_succ ha, ?_, ?_⟩
              · simpa using hb
              · intro k hk
                cases k with
                | zero => exact hcl
                | succ k0 => simpa using hc k0 (by omega)

theorem matchCompleteSfx_spec (t n a c : List Char) (len : Nat)
    (h : matchCompleteSfx t = Option.some (n, a, c, len)) :
    ∃ ws rest,
      ws.all isWs = true ∧
      t = (('<' :: n) ++ a ++ ('>' :: c) ++ ('<' :: '/' :: n) ++ ws ++ ['>']) ++ rest ∧
      len = (('<' :: n) ++ a ++ ('>' :: c) ++ ('<' :: '/' :: n) ++ ws ++ ['>']).length ∧
      (∀ c1 ws2 c2, ws2.all isWs = true →
        c ≠ c1 ++ ('<' :: '/' :: n) ++ ws2 ++ '>' :: c2) := by
  unfold matchCompleteSfx at h
  split at h
  · next rest1 =>
      split at h
      · next name rest0 heqns =>
          split at h
          · next g heqg =>
              dsimp only at h
              split at h
              · next hok =>
                  split at h
                  · next j clen heqfc =>
                      obtain ⟨h1, h2⟩ := Prod.mk.inj (Option.some.inj h)
                      obtain ⟨h3, h4⟩ := Prod.mk.inj h2
                      obtain ⟨h5, h6⟩ := Prod.mk.inj h4
                      subst h1; subst h3; subst h5; subst h6
                      obtain ⟨hrest1, -⟩ := nameSplit_spec rest1 name rest0 heqns
                      obtain ⟨hglt, hr0⟩ := idxOfGt_spec rest0 g heqg
                      obtain ⟨hjle, hclj, hmin⟩ :=
                        findCloser_spec name (rest0.drop (g + 1)) j clen heqfc
                      obtain ⟨ws, rest2, hws, hdropj, hclen⟩ :=
                        closerLenAt_spec name ((rest0.drop (g + 1)).drop j) clen hclj
                      refine ⟨ws, rest2, hws, ?_, ?_, ?_⟩
                      · have haft : rest0.drop (g + 1) =
                            (rest0.drop (g + 1)).take j ++
                              ('<' :: '/' :: (name ++ ws ++ '>' :: rest2)) := by
                          conv_lhs =>
                            rw [← List.take_append_drop j (rest0.drop (g + 1))]
                          rw [hdropj]
                          simp [List.append_assoc]
                        conv_lhs => rw [hrest1, hr0, haft]
                        simp [List.append_assoc]
                      · have hal : (rest0.take g).length = g := by
                          rw [List.length_take]
                          omega
                        have hcl2 : ((rest0.drop (g + 1)).take j).length = j := by
                          rw [List.length_take]
                          omega
                        simp only [List.append_assoc, List.cons_append,
                          List.length_append, List.length_cons, List.length_nil]
                        omega
                      · intro c1 ws2 c2 hws2 hceq
                        have hcl2 : ((rest0.drop (g + 1)).take j).length = j := by
                          rw [List.length_take]
                          omega
                        have hL := congrArg List.length hceq
                        simp only [List.length_append, List.length_cons] at hL
                        have hlt : c1.length < j := by omega
                        have hmin1 := hmin c1.length hlt
                        have hsplit : rest0.drop (g + 1) =
                            c1 ++ ('<' :: '/' ::
                              (name ++ ws2 ++ '>' ::
                                (c2 ++ (rest0.drop (g + 1)).drop j))) := by
                          conv_lhs =>
                            rw [← List.take_append_drop j (rest0.drop (g + 1))]
                          rw [hceq]
                          simp [List.append_assoc]
                        rw [hsplit, List.drop_left,
                          closerLenAt_of_shape name ws2
                            (c2 ++ (rest0.drop (g + 1)).drop j) hws2] at hmin1
                        exact Option.noConfusion hmin1
                  · exact Option.noConfusion h
              · exact Option.noConfusion h
          · exact Option.noConfusion h
      · exact Option.noConfusion h
  · exact Option.noConfusion h

theorem completeAt_spec (cs : Bool) (s : List Char) (p : Nat) (m : TagMatch)
    (h : completeAt cs s p = Option.some m) :
    m.startIndex = p ∧ p < m.endIndex ∧ m.endIndex ≤ s.length ∧
    m.ttype = TagType.complete ∧
    m.fullMatch = (s.drop p).take (m.endIndex - p) ∧
    CompleteShape cs m := by
  unfold completeAt at h
  dsimp only at h
  split at h
  · next n a c len heq =>
      obtain rfl := Option.some.inj h
      obtain ⟨ws, rest, hws, hshape, hlen, hng⟩ :=
        matchCompleteSfx_spec (s.drop p) n a c len heq
      have hLL := congrArg List.length hshape
      simp only [List.length_append, List.length_cons, List.length_nil,
        List.length_drop] at hLL
      have hlen2 := hlen
      simp only [List.length_append, List.length_cons, List.length_nil] at hlen2
      refine ⟨rfl, ?_, ?_, rfl, ?_, ?_⟩
      · dsimp only
        omega
      · dsimp only
        omega
      · dsimp only
        have hplen : p + len - p = len := by omega
        rw [hplen]
      · refine ⟨n, a, ws, hws, rfl, ?_, ?_⟩
        · dsimp only
          rw [hshape, hlen]
          exact List.take_left _ _
        · dsimp only
          exact hng
  · exact Option.noConfusion h

theorem findCompleteAux_spec (cs : Bool) (s : List Char) :
    ∀ (fuel i : Nat), s.length + 1 - i ≤ fuel →
      (∀ m ∈ findCompleteAux cs s fuel i,
          i ≤ m.startIndex ∧ completeAt cs s m.startIndex = Option.some m) ∧
      List.Chain' (fun m1 m2 => m1.endIndex ≤ m2.startIndex)
        (findCompleteAux cs s fuel i) ∧
      (∀ p m', i ≤ p → completeAt cs s p = Option.some m' →
        ∃ m ∈ findCompleteAux cs s fuel i, m.startIndex ≤ p ∧ p < m.endIndex) := by
  intro fuel
  induction fuel with
  | zero =>
      intro i hfuel
      refine ⟨?_, ?_, ?_⟩
      · intro m hm
        simp [findCompleteAux] at hm
      · simp [findCompleteAux]
      · intro p m' hip hp
        obtain ⟨-, hlt, hle, -, -, -⟩ := completeAt_spec cs s p m' hp
        exfalso
        omega
  | succ fl ih =>
      intro i hfuel
      cases hfs : firstSome (completeAt cs s) i (s.length - i) with
      | none =>
          have hnone := firstSome_eq_none (completeAt cs s) (s.length - i) i hfs
          refine ⟨?_, ?_, ?_⟩
          · intro m hm
            simp only [findCompleteAux, hfs] at hm
            exact absurd hm (List.not_mem_nil m)
          · simp only [findCompleteAux, hfs]
            exact List.chain'_nil
          · intro p m' hip hp
            obtain ⟨-, hlt, hle, -, -, -⟩ := completeAt_spec cs s p m' hp
            exfalso
            have hpn := hnone p hip (by omega)
            rw [hpn] at hp
            exact Option.noConfusion hp
      | some m0 =>
          obtain ⟨j, hij, hjlt, hcj, hminj⟩ :=
            firstSome_eq_some (completeAt cs s) (s.length - i) i m0 hfs
          obtain ⟨hsi, hlt, hle, -, -, -⟩ := completeAt_spec cs s j m0 hcj
          have hrec : s.length + 1 - m0.endIndex ≤ fl := by omega
          obtain ⟨ihmem, ihchain, ihcomp⟩ := ih m0.endIndex hrec
          refine ⟨?_, ?_, ?_⟩
          · intro m hm
            simp only [findCompleteAux, hfs, List.mem_cons] at hm
            rcases hm with rfl | hm
            · refine ⟨by omega, ?_⟩
              rw [hsi]
              exact hcj
            · obtain ⟨h1, h2⟩ := ihmem m hm
              exact ⟨by omega, h2⟩
          · simp only [findCompleteAux, hfs]
            rw [List.chain'_cons']
            refine ⟨?_, ihchain⟩
            intro b hb
            have hbmem : b ∈ findCompleteAux cs s fl m0.endIndex :=
              List.mem_of_mem_head? hb
            exact (ihmem b hbmem).1
          · intro p m' hip hp
            by_cases hpj : p < j
            · exfalso
              have hpn := hminj p hip hpj
              rw [hpn] at hp
              exact Option.noConfusion hp
            · by_cases hpe : p < m0.endIndex
              · refine ⟨m0, ?_, by omega, hpe⟩
                simp only [findCompleteAux, hfs]
                exact List.mem_cons_self m0 _
              · obtain ⟨m, hm, hm1, hm2⟩ := ihcomp p m' (by omega) hp
                refine ⟨m, ?_, hm1, hm2⟩
                simp only [findCompleteAux, hfs]
                exact List.mem_cons_of_mem m0 hm

/-- C5: for every buffer string, `findCompleteTags` returns non-overlapping
matches in left-to-right order; each returned match is a genuine occurrence
of the `COMPLETE` shape at its recorded position — a full opener followed by
content and a closing tag whose backreferenced name equals the opener's raw
name, with the content matched non-greedily (it contains no earlier matching
closer); every position where the pattern matches is covered by a returned
match (so the scan finds all non-overlapping occurrences); and buffers whose
opening tag has no matching closing tag for the same name — `"<a>x"`,
`"<a>x</b>"` — contribute zero matches. -/
theorem C5_find_complete_tags (cs : Bool) (s : List Char) :
    List.Chain' (fun m1 m2 => m1.endIndex ≤ m2.startIndex) (findCompleteTags cs s) ∧
    (∀ m ∈ findCompleteTags cs s,
        m.startIndex < m.endIndex ∧ m.endIndex ≤ s.length ∧
        m.ttype = TagType.complete ∧
        m.fullMatch = (s.drop m.startIndex).take (m.endIndex - m.startIndex) ∧
        CompleteShape cs m) ∧
    (∀ p m', completeAt cs s p = Option.some m' →
        ∃ m ∈ findCompleteTags cs s, m.startIndex ≤ p ∧ p < m.endIndex) ∧
    findCompleteTags cs (String.toList "<a>x") = [] ∧
    findCompleteTags cs (String.toList "<a>x</b>") = [] := by
  obtain ⟨hmem, hchain, hcomp⟩ :=
    findCompleteAux_spec cs s (s.length + 1) 0 (by omega)
  refine ⟨hchain, ?_, ?_, rfl, rfl⟩
  · intro m hm
    obtain ⟨-, hc⟩ := hmem m hm
    obtain ⟨-, hlt, hle, ht, hfm, hshape⟩ :=
      completeAt_spec cs s m.startIndex m hc
    exact ⟨hlt, hle, ht, hfm, hshape⟩
  · intro p m' hp
    exact hcomp p m' (Nat.zero_le p) hp

/-- Witness for C5: on `"<a>x</a>"` the pattern matches at position 0, and
the scan indeed returns a match covering that position. -/
theorem C5_find_complete_tags_witness :
    ∃ m ∈ findCompleteTags false (String.toList "<a>x</a>"),
      m.startIndex ≤ 0 ∧ 0 < m.endIndex :=
  (C5_find_complete_tags false (String.toList "<a>x</a>")).2.2.1 0
    ({ tagName := ['a'], content := ['x'], attributes := Option.none,
       startIndex := 0, endIndex := 8,
       fullMatch := String.toList "<a>x</a>",
       ttype := TagType.complete } : TagMatch)
    (by decide)

end LSP
